import Mathlib

/-!
Verification of the fd-rs numerical engine (1-D scalar conservation laws,
explicit conservative finite-difference schemes).

The development shallowly embeds the Rust sources over exact rational
arithmetic:
  - src/equations.rs : the Equation trait and its two concrete laws;
  - src/base.rs      : the Simluation (grid/state) container with its
                       halo extension get_u / get_f, set_state, new, default;
  - src/schemes.rs   : the shared wave-speed estimator, the shared
                       conservative update run, and the four flux formulas
                       (Upwind, BeamWarming, LaxWendroff, LaxFriedrichs).

Rust assertion failures (the CFL check, the length sanity checks, the
set_state length check) are modelled as Option-failure: a function that
would panic returns none.  Machine floats are idealised as rationals, so
equalities hold exactly rather than to floating-point tolerance.
-/

namespace FdRs

/-! ## Equations (src/equations.rs)

The Rust trait Equation has two methods, f and df; we embed an equation as
a pair of rational functions.  The two concrete laws of the repository are
Advection and InviscidBurger. -/

structure Equation where
  f : ℚ → ℚ
  df : ℚ → ℚ

/-- Linear advection: f(u) = u * a, df(u) = a. -/
def Advection (a : ℚ) : Equation :=
  { f := fun u => u * a
    df := fun _ => a }

/-- Inviscid Burgers equation: f(u) = u^2 / 2, df(u) = u. -/
def InviscidBurger : Equation :=
  { f := fun u => u ^ 2 / 2
    df := fun u => u }

/-! ## The grid/state container (src/base.rs) -/

structure Simluation where
  state : List ℚ
  dt : ℚ
  dx : ℚ
  grid : List ℚ
  boundary : Option (ℚ × ℚ)
deriving DecidableEq

/-- Embedding of ndarray Array::range(start, end, step) as used by
Simluation::new and default: linspace computes the sample count
ceil((end-start)/step) and converts it with to_usize().unwrap().  A zero
step (an infinite or NaN count in floats) or a negative count makes that
unwrap panic, modelled as none; on success element i is start + i * step.
(Exact arithmetic stands in for f64.) -/
def arrayRange (start stop step : ℚ) : Option (List ℚ) :=
  if step = 0 then none
  else if ⌈(stop - start) / step⌉ < 0 then none
  else some ((List.range (⌈(stop - start) / step⌉.toNat)).map
    (fun (i : ℕ) => start + (i : ℚ) * step))

/-- Simluation::new.  The Rust constructor performs no validation of dx, dt
or the range itself: it builds the grid with Array::range (whose library
panic on a bad count is the only failure path, propagated here as none),
maps the initial condition over it, and always sets boundary to None. -/
def Simluation.new (dx dt lo hi : ℚ) (init : ℚ → ℚ) : Option Simluation :=
  match arrayRange lo hi dx with
  | none => none
  | some grid =>
    some { dx := dx
           dt := dt
           boundary := none
           grid := grid
           state := grid.map init }

/-- Default::default for Simluation: dx = 1e-2, cfl = 0.6, grid over
[-5, 5), zero state, boundary None.  (For these constants the range count
is the positive 1000, so the library panic is impossible and the getD []
never fires.) -/
def Simluation.default : Simluation :=
  let dx : ℚ := 1 / 100
  let cfl : ℚ := 6 / 10
  let space := (arrayRange (-5) 5 dx).getD []
  { dt := cfl * dx
    dx := dx
    state := List.replicate space.length 0
    grid := space
    boundary := none }

def Simluation.len (sim : Simluation) : ℕ :=
  sim.state.length

/-- Simluation::set_state.  The Rust method assert_eq!s the lengths before
assigning; the assertion failure is modelled as none. -/
def Simluation.set_state (sim : Simluation) (new_state : List ℚ) : Option Simluation :=
  if sim.len = new_state.length then
    some { sim with state := new_state }
  else
    none

def Simluation.dt_over_dx (sim : Simluation) : ℚ :=
  sim.dt / sim.dx

/-- One iteration of the boundary-extension loop in Simluation::get_u:
insert the left boundary value at the front and push the right boundary
value at the back, both read from the original state u. -/
def extendOnce (u : List ℚ) (boundary : Option (ℚ × ℚ)) (i : ℕ) (v : List ℚ) : List ℚ :=
  ((match boundary with
    | some b => b.1
    | none => u.getD (u.length - 1 - i) 0) :: v)
    ++ [match boundary with
        | some b => b.2
        | none => u.getD i 0]

/-- Simluation::get_u: the halo-extended state of width ext.  For ext = 0
this is the state itself; otherwise the loop body runs for i = 0 .. ext-1. -/
def Simluation.get_u (sim : Simluation) (ext : ℕ) : List ℚ :=
  (List.range ext).foldl (fun v i => extendOnce sim.state sim.boundary i v) sim.state

/-- Simluation::get_f: the equation flux mapped over the extended state. -/
def Simluation.get_f (sim : Simluation) (eq : Equation) (ext : ℕ) : List ℚ :=
  (sim.get_u ext).map eq.f

/-! ## Schemes (src/schemes.rs) -/

/-- First differences r - l of consecutive entries, as built by zipping an
iterator with itself skipped by one. -/
def diffList (l : List ℚ) : List ℚ :=
  List.zipWith (fun a b => b - a) l (l.drop 1)

/-- The izip! of three equal-role iterators (truncating to the shortest). -/
def izip3 (a b c : List ℚ) : List (ℚ × ℚ × ℚ) :=
  a.zip (b.zip c)

/-- The izip! of four iterators. -/
def izip4 (a b c d : List ℚ) : List (ℚ × ℚ × ℚ × ℚ) :=
  a.zip (b.zip (c.zip d))

/-- The izip! of seven iterators. -/
def izip7 (a b c d e f g : List ℚ) : List (ℚ × ℚ × ℚ × ℚ × ℚ × ℚ × ℚ) :=
  a.zip (b.zip (c.zip (d.zip (e.zip (f.zip g)))))

/-- The compute_v closure of Scheme::speed, without its CFL assertion:
the discrete Rankine-Hugoniot speed df/du (falling back to the analytic
derivative when du = 0), scaled by dt/dx. -/
def compute_v (eq : Equation) (dt_over_dx : ℚ) : ℚ × ℚ × ℚ → ℚ :=
  fun x =>
    match x with
    | (u, du, df) =>
      (if du = 0 then eq.df u else df / du) * dt_over_dx

/-- Scheme::speed.  Builds the (ext+1)-extended state and flux, their first
differences, and the two speed windows v_neg and v_pos.  The CFL assertion
inside compute_v and the two sanity assert_eq!s are modelled as failure
(none). -/
def Scheme.speed (sim : Simluation) (eq : Equation) (ext : ℕ) :
    Option (List ℚ × List ℚ) :=
  let n := sim.len
  let dt_over_dx := sim.dt_over_dx
  let u := sim.get_u (ext + 1)
  let du := diffList u
  let f := sim.get_f eq (ext + 1)
  let df := diffList f
  let v_pos := (izip3 (u.drop 1) (du.drop 1) (df.drop 1)).map (compute_v eq dt_over_dx)
  let v_neg := (izip3 (u.drop ext) (du.take (n + ext * 2)) (df.take (n + ext * 2))).map
    (compute_v eq dt_over_dx)
  if (v_pos.all fun v => |v| ≤ 1) ∧ (v_neg.all fun v => |v| ≤ 1) ∧
      v_neg.length = v_pos.length ∧ v_pos.length = n + 2 * ext then
    some (v_neg, v_pos)
  else
    none

/-- Upwind::flux: the flux follows the sign of the local speed (halo 1,
speeds at ext = 0). -/
def Upwind.flux (sim : Simluation) (eq : Equation) : Option (List ℚ × List ℚ) :=
  let f := sim.get_f eq 1
  match Scheme.speed sim eq 0 with
  | none => none
  | some (v_neg, v_pos) =>
    let h_pos := (izip3 v_pos (f.drop 1) (f.drop 2)).map
      (fun x => match x with
        | (v, fj, f_next) => if 0 < v then fj else f_next)
    let h_neg := (izip3 v_neg (f.drop 1) f).map
      (fun x => match x with
        | (v, fj, f_prev) => if v < 0 then fj else f_prev)
    if h_neg.length = h_pos.length ∧ h_neg.length = sim.len then
      some (h_neg, h_pos)
    else
      none

/-- The branch shared by both BeamWarming windows. -/
def beamWarmingCell : ℚ × ℚ × ℚ × ℚ × ℚ × ℚ × ℚ → ℚ :=
  fun x =>
    match x with
    | (v1, v2, v3, f1, f2, f3, f4) =>
      if 0 < v2 then
        ((3 * f2 - f1) - v1 * (f2 - f1)) / 2
      else
        ((3 * f3 - f4) - v3 * (f4 - f3)) / 2

/-- BeamWarming::flux: second-order upwind-biased extrapolation (halo 2,
speeds at ext = 1). -/
def BeamWarming.flux (sim : Simluation) (eq : Equation) : Option (List ℚ × List ℚ) :=
  let n := sim.len
  let f := sim.get_f eq 2
  match Scheme.speed sim eq 1 with
  | none => none
  | some (v_neg, v_pos) =>
    let h_pos := (izip7 (v_neg.drop 1) (v_pos.drop 1) (v_pos.drop 2)
      (f.drop 1) (f.drop 2) (f.drop 3) (f.drop 4)).map beamWarmingCell
    let h_neg := ((izip7 v_neg (v_neg.drop 1) (v_pos.drop 1)
      f (f.drop 1) (f.drop 2) (f.drop 3)).take n).map beamWarmingCell
    if h_neg.length = h_pos.length ∧ h_neg.length = n then
      some (h_neg, h_pos)
    else
      none

/-- LaxWendroff::flux (halo 1, no speed estimate). -/
def LaxWendroff.flux (sim : Simluation) (eq : Equation) : Option (List ℚ × List ℚ) :=
  let dt_over_dx := sim.dt_over_dx
  let n := sim.len
  let u := sim.get_u 1
  let f := sim.get_f eq 1
  let h_pos := (izip4 (u.drop 1) (u.drop 2) (f.drop 1) (f.drop 2)).map
    (fun x => match x with
      | (uj, u_next, fj, f_next) =>
        eq.f ((u_next + uj - dt_over_dx * (f_next - fj)) / 2))
  let h_neg := (izip4 (u.drop 1) (u.take n) (f.drop 1) (f.take n)).map
    (fun x => match x with
      | (uj, u_prev, fj, f_prev) =>
        eq.f ((uj + u_prev - dt_over_dx * (fj - f_prev)) / 2))
  if h_neg.length = h_pos.length ∧ h_neg.length = sim.len then
    some (h_neg, h_pos)
  else
    none

/-- LaxFriedrichs::flux (halo 1, no speed estimate). -/
def LaxFriedrichs.flux (sim : Simluation) (eq : Equation) : Option (List ℚ × List ℚ) :=
  let dt_over_dx := sim.dt_over_dx
  let n := sim.len
  let u := sim.get_u 1
  let f := sim.get_f eq 1
  let h_pos := (izip4 (u.drop 1) (u.drop 2) (f.drop 1) (f.drop 2)).map
    (fun x => match x with
      | (uj, u_next, fj, f_next) =>
        ((f_next + fj) - dt_over_dx * (u_next - uj)) / 2)
  let h_neg := (izip4 (u.drop 1) (u.take n) (f.drop 1) (f.take n)).map
    (fun x => match x with
      | (uj, u_prev, fj, f_prev) =>
        ((fj + f_prev) - dt_over_dx * (uj - u_prev)) / 2)
  if h_neg.length = h_pos.length ∧ h_neg.length = sim.len then
    some (h_neg, h_pos)
  else
    none

/-- The closed set of schemes of the repository. -/
inductive SchemeKind
  | upwind
  | beamWarming
  | laxWendroff
  | laxFriedrichs
deriving DecidableEq

/-- Dynamic dispatch of Scheme::flux over the concrete schemes. -/
def SchemeKind.flux : SchemeKind → Simluation → Equation → Option (List ℚ × List ℚ)
  | .upwind => Upwind.flux
  | .beamWarming => BeamWarming.flux
  | .laxWendroff => LaxWendroff.flux
  | .laxFriedrichs => LaxFriedrichs.flux

/-- The minimal state length for which the periodic halo reads of a scheme
stay in bounds in the Rust code (halo 2 for BeamWarming, halo 1 otherwise). -/
def SchemeKind.minN : SchemeKind → ℕ
  | .beamWarming => 2
  | _ => 1

/-- Scheme::run: the shared conservative update
new_state = u - dt/dx * (h_pos - h_neg). -/
def Scheme.run (k : SchemeKind) (sim : Simluation) (eq : Equation) : Option (List ℚ) :=
  match k.flux sim eq with
  | none => none
  | some (h_neg, h_pos) =>
    some (List.zipWith (fun a b => a - b) (sim.get_u 0)
      ((List.zipWith (fun a b => a - b) h_pos h_neg).map (fun x => sim.dt_over_dx * x)))

/-- The per-interface speed sequence underlying Scheme::speed: the value of
compute_v at interface t of the (ext+1)-extended state (between extended
cells t and t+1), with the du = 0 fallback taken at the left cell.  Both
speed windows are offset windows of this sequence for ext at most 1. -/
def interfaceV (eq : Equation) (dt_over_dx : ℚ) (u : List ℚ) (t : ℕ) : ℚ :=
  compute_v eq dt_over_dx
    (u.getD t 0, (diffList u).getD t 0, (diffList (u.map eq.f)).getD t 0)

/-! ## Basic list lemmas used throughout -/

lemma getD_drop (l : List ℚ) (k i : ℕ) :
    (l.drop k).getD i 0 = l.getD (k + i) 0 := by
  by_cases h : k + i < l.length
  · have h' : i < (l.drop k).length := by simp; omega
    rw [List.getD_eq_getElem _ _ h', List.getD_eq_getElem _ _ h]
    simp [List.getElem_drop]
  · have h1 : (l.drop k).length ≤ i := by simp; omega
    have h2 : l.length ≤ k + i := by omega
    rw [List.getD_eq_default _ _ h1, List.getD_eq_default _ _ h2]

lemma getD_take (l : List ℚ) (k i : ℕ) (h : i < k) :
    (l.take k).getD i 0 = l.getD i 0 := by
  by_cases h' : i < l.length
  · have h'' : i < (l.take k).length := by simp; omega
    rw [List.getD_eq_getElem _ _ h'', List.getD_eq_getElem _ _ h']
    simp [List.getElem_take]
  · have h1 : (l.take k).length ≤ i := by simp; omega
    have h2 : l.length ≤ i := by omega
    rw [List.getD_eq_default _ _ h1, List.getD_eq_default _ _ h2]

lemma getD_map_eqf (l : List ℚ) (f : ℚ → ℚ) (i : ℕ) (h : i < l.length) :
    (l.map f).getD i 0 = f (l.getD i 0) := by
  have h' : i < (l.map f).length := by simpa using h
  rw [List.getD_eq_getElem _ _ h', List.getD_eq_getElem _ _ h]
  simp

lemma length_diffList (l : List ℚ) : (diffList l).length = l.length - 1 := by
  simp [diffList]

lemma getD_diffList (l : List ℚ) (i : ℕ) (h : i + 1 < l.length) :
    (diffList l).getD i 0 = l.getD (i + 1) 0 - l.getD i 0 := by
  have h1 : i < (diffList l).length := by rw [length_diffList]; omega
  rw [List.getD_eq_getElem _ _ h1]
  have h2 : i < l.length := by omega
  have h3 : i < (l.drop 1).length := by simp; omega
  simp only [diffList, List.getElem_zipWith]
  rw [List.getD_eq_getElem _ _ h2, List.getD_eq_getElem _ _ h]
  congr 1
  rw [List.getElem_drop]
  congr 1
  omega

lemma length_izip3 (a b c : List ℚ) :
    (izip3 a b c).length = min a.length (min b.length c.length) := by
  simp [izip3]

lemma getD_map_izip3 (g : ℚ × ℚ × ℚ → ℚ) (a b c : List ℚ) (j : ℕ)
    (hj : j < (izip3 a b c).length) :
    ((izip3 a b c).map g).getD j 0 = g (a.getD j 0, b.getD j 0, c.getD j 0) := by
  have hj' : j < ((izip3 a b c).map g).length := by simpa using hj
  rw [List.getD_eq_getElem _ _ hj']
  rw [length_izip3] at hj
  have ha : j < a.length := by omega
  have hb : j < b.length := by omega
  have hc : j < c.length := by omega
  rw [List.getD_eq_getElem _ _ ha, List.getD_eq_getElem _ _ hb, List.getD_eq_getElem _ _ hc]
  simp [izip3]

lemma length_izip4 (a b c d : List ℚ) :
    (izip4 a b c d).length = min a.length (min b.length (min c.length d.length)) := by
  simp [izip4]

lemma getD_map_izip4 (g : ℚ × ℚ × ℚ × ℚ → ℚ) (a b c d : List ℚ) (j : ℕ)
    (hj : j < (izip4 a b c d).length) :
    ((izip4 a b c d).map g).getD j 0 =
      g (a.getD j 0, b.getD j 0, c.getD j 0, d.getD j 0) := by
  have hj' : j < ((izip4 a b c d).map g).length := by simpa using hj
  rw [List.getD_eq_getElem _ _ hj']
  rw [length_izip4] at hj
  have ha : j < a.length := by omega
  have hb : j < b.length := by omega
  have hc : j < c.length := by omega
  have hd : j < d.length := by omega
  rw [List.getD_eq_getElem _ _ ha, List.getD_eq_getElem _ _ hb,
    List.getD_eq_getElem _ _ hc, List.getD_eq_getElem _ _ hd]
  simp [izip4]

lemma length_izip7 (a b c d e f g : List ℚ) :
    (izip7 a b c d e f g).length =
      min a.length (min b.length (min c.length (min d.length
        (min e.length (min f.length g.length))))) := by
  simp [izip7]

lemma getD_map_izip7 (gg : ℚ × ℚ × ℚ × ℚ × ℚ × ℚ × ℚ → ℚ) (a b c d e f g : List ℚ) (j : ℕ)
    (hj : j < (izip7 a b c d e f g).length) :
    ((izip7 a b c d e f g).map gg).getD j 0 =
      gg (a.getD j 0, b.getD j 0, c.getD j 0, d.getD j 0, e.getD j 0, f.getD j 0, g.getD j 0) := by
  have hj' : j < ((izip7 a b c d e f g).map gg).length := by simpa using hj
  rw [List.getD_eq_getElem _ _ hj']
  rw [length_izip7] at hj
  have ha : j < a.length := by omega
  have hb : j < b.length := by omega
  have hc : j < c.length := by omega
  have hd : j < d.length := by omega
  have he : j < e.length := by omega
  have hf : j < f.length := by omega
  have hg : j < g.length := by omega
  rw [List.getD_eq_getElem _ _ ha, List.getD_eq_getElem _ _ hb, List.getD_eq_getElem _ _ hc,
    List.getD_eq_getElem _ _ hd, List.getD_eq_getElem _ _ he, List.getD_eq_getElem _ _ hf,
    List.getD_eq_getElem _ _ hg]
  simp [izip7]

/-! ## Structure of the halo extension -/

lemma length_extendOnce (u : List ℚ) (b : Option (ℚ × ℚ)) (i : ℕ) (v : List ℚ) :
    (extendOnce u b i v).length = v.length + 2 := by
  cases b <;> simp [extendOnce]

lemma get_u_zero (sim : Simluation) : sim.get_u 0 = sim.state := rfl

lemma get_u_succ (sim : Simluation) (ext : ℕ) :
    sim.get_u (ext + 1) = extendOnce sim.state sim.boundary ext (sim.get_u ext) := by
  show (List.range (ext + 1)).foldl _ _ = _
  have : List.range (ext + 1) = List.range ext ++ [ext] := List.range_succ ext
  rw [this, List.foldl_append]
  rfl

lemma length_get_u (sim : Simluation) (ext : ℕ) :
    (sim.get_u ext).length = sim.len + 2 * ext := by
  induction ext with
  | zero => simp [get_u_zero, Simluation.len]
  | succ e ih =>
    rw [get_u_succ, length_extendOnce, ih]
    omega

/-- Closed form of the periodic halo extension: wrap by halo distance. -/
lemma get_u_periodic (sim : Simluation) (hb : sim.boundary = none) (ext : ℕ)
    (hext : ext ≤ sim.state.length) :
    sim.get_u ext =
      sim.state.drop (sim.state.length - ext) ++ sim.state ++ sim.state.take ext := by
  induction ext with
  | zero => simp [get_u_zero]
  | succ e ih =>
    have he : e ≤ sim.state.length := by omega
    rw [get_u_succ, ih he, hb]
    have hlt : sim.state.length - (e + 1) < sim.state.length := by omega
    have hdrop : sim.state.drop (sim.state.length - (e + 1)) =
        sim.state[sim.state.length - (e + 1)] :: sim.state.drop (sim.state.length - e) := by
      rw [List.drop_eq_getElem_cons hlt]
      congr 2
      omega
    have helt : e < sim.state.length := by omega
    have htake : sim.state.take (e + 1) = sim.state.take e ++ [sim.state[e]] :=
      (List.take_concat_get' sim.state e helt).symm
    rw [hdrop, htake, extendOnce]
    have hgd1 : sim.state.getD (sim.state.length - 1 - e) 0 =
        sim.state[sim.state.length - (e + 1)] := by
      rw [List.getD_eq_getElem]
      · congr 1
        omega
      · omega
    have hgd2 : sim.state.getD e 0 = sim.state[e] := List.getD_eq_getElem _ _ helt
    simp only [hgd1, hgd2]
    simp

/-- Closed form of the Dirichlet halo extension: broadcast the two stored
boundary constants. -/
lemma get_u_dirichlet (sim : Simluation) (l r : ℚ) (hb : sim.boundary = some (l, r))
    (ext : ℕ) :
    sim.get_u ext =
      List.replicate ext l ++ sim.state ++ List.replicate ext r := by
  induction ext with
  | zero => simp [get_u_zero]
  | succ e ih =>
    rw [get_u_succ, ih, hb, extendOnce]
    have hr : List.replicate e r ++ [r] = List.replicate (e + 1) r := by
      rw [List.replicate_succ']
    have hl : List.replicate (e + 1) l = l :: List.replicate e l := List.replicate_succ l e
    simp only [List.cons_append, List.append_assoc, hl]
    rw [← hr]

/-- Uniform index formula for the periodic extension: entry p of the
ext-extended state is entry (p + N - ext) mod N of the state. -/
lemma getD_get_u_periodic (sim : Simluation) (hb : sim.boundary = none) (ext p : ℕ)
    (hext : ext ≤ sim.state.length) (hp : p < sim.state.length + 2 * ext) :
    (sim.get_u ext).getD p 0 =
      sim.state.getD ((p + sim.state.length - ext) % sim.state.length) 0 := by
  have hnpos : 0 < sim.state.length := by omega
  rw [get_u_periodic sim hb ext hext]
  have hlen_drop : (sim.state.drop (sim.state.length - ext)).length = ext := by
    simp only [List.length_drop]
    omega
  by_cases h1 : p < ext
  · rw [List.append_assoc, List.getD_append _ _ _ _ (by rw [hlen_drop]; omega)]
    rw [getD_drop]
    congr 1
    have hlt : p + sim.state.length - ext < sim.state.length := by omega
    rw [Nat.mod_eq_of_lt hlt]
    omega
  · by_cases h2 : p < ext + sim.state.length
    · rw [List.append_assoc, List.getD_append_right _ _ _ _ (by rw [hlen_drop]; omega)]
      rw [hlen_drop]
      rw [List.getD_append _ _ _ _ (by omega)]
      congr 1
      have heq : p + sim.state.length - ext = (p - ext) + sim.state.length := by omega
      rw [heq, Nat.add_mod_right, Nat.mod_eq_of_lt (by omega)]
    · rw [List.append_assoc, List.getD_append_right _ _ _ _ (by rw [hlen_drop]; omega)]
      rw [hlen_drop]
      rw [List.getD_append_right _ _ _ _ (by omega)]
      rw [getD_take _ _ _ (by omega)]
      congr 1
      have heq : p + sim.state.length - ext
          = (p - ext - sim.state.length) + sim.state.length + sim.state.length := by omega
      rw [heq, Nat.add_mod_right, Nat.add_mod_right,
        Nat.mod_eq_of_lt (by omega)]

/-- Periodicity of the extended state: shifting an index by N gives the
same entry (both indices in range). -/
lemma get_u_wrap (sim : Simluation) (hb : sim.boundary = none) (ext p : ℕ)
    (hext : ext ≤ sim.state.length) (hp : p + sim.state.length < sim.state.length + 2 * ext) :
    (sim.get_u ext).getD (p + sim.state.length) 0 = (sim.get_u ext).getD p 0 := by
  rw [getD_get_u_periodic sim hb ext _ hext hp,
    getD_get_u_periodic sim hb ext p hext (by omega)]
  congr 1
  have : p + sim.state.length + sim.state.length - ext
      = (p + sim.state.length - ext) + sim.state.length := by omega
  rw [this, Nat.add_mod_right]

/-! ## Sum lemmas -/

lemma all_iff_getD (l : List ℚ) (p : ℚ → Bool) :
    l.all p = true ↔ ∀ i, i < l.length → p (l.getD i 0) = true := by
  induction l with
  | nil => simp
  | cons x xs ih =>
    simp only [List.all_cons, Bool.and_eq_true, ih, List.length_cons]
    constructor
    · rintro ⟨hx, hxs⟩ i hi
      cases i with
      | zero => simpa using hx
      | succ j => exact hxs j (by omega)
    · intro h
      refine ⟨by simpa using h 0 (by omega), fun i hi => ?_⟩
      exact h (i + 1) (by omega)

lemma getD_zipWith (f : ℚ → ℚ → ℚ) (a b : List ℚ) (j : ℕ)
    (hj : j < (List.zipWith f a b).length) :
    (List.zipWith f a b).getD j 0 = f (a.getD j 0) (b.getD j 0) := by
  rw [List.getD_eq_getElem _ _ hj, List.getElem_zipWith]
  rw [List.length_zipWith] at hj
  rw [List.getD_eq_getElem _ _ (by omega), List.getD_eq_getElem _ _ (by omega)]

lemma list_sum_eq_range_sum (l : List ℚ) :
    ∀ (n : ℕ) (g : ℕ → ℚ), l.length = n → (∀ j, j < n → l.getD j 0 = g j) →
      l.sum = ∑ j ∈ Finset.range n, g j := by
  induction l with
  | nil =>
    intro n g hlen _
    simp [← hlen]
  | cons x xs ih =>
    intro n g hlen hg
    cases n with
    | zero => simp at hlen
    | succ m =>
      have hxs : xs.length = m := by simpa using hlen
      have hx : x = g 0 := hg 0 (by omega)
      have hrec : xs.sum = ∑ j ∈ Finset.range m, g (j + 1) := by
        refine ih m (fun j => g (j + 1)) hxs (fun j hj => ?_)
        simpa using hg (j + 1) (by omega)
      rw [List.sum_cons, hrec, hx, Finset.sum_range_succ']
      ring

lemma sum_zipWith_sub (xs : List ℚ) :
    ∀ ys : List ℚ, xs.length = ys.length →
      (List.zipWith (fun a b => a - b) xs ys).sum = xs.sum - ys.sum := by
  induction xs with
  | nil =>
    intro ys h
    have : ys = [] := List.eq_nil_of_length_eq_zero (by simpa using h.symm)
    simp [this]
  | cons x xs ih =>
    intro ys h
    cases ys with
    | nil => simp at h
    | cons y ys =>
      simp only [List.zipWith_cons_cons, List.sum_cons]
      rw [ih ys (by simpa using h)]
      ring

lemma sum_map_mul (c : ℚ) (l : List ℚ) :
    (l.map (fun x => c * x)).sum = c * l.sum := by
  induction l with
  | nil => simp
  | cons x xs ih =>
    simp only [List.map_cons, List.sum_cons, ih]
    ring

/-- Telescoping with periodic wrap: if B is A shifted by one with wrap-around,
the two sums over range n agree. -/
lemma wrap_pair_sum (n : ℕ) (A B : ℕ → ℚ)
    (hpair : ∀ j, j + 1 < n → B (j + 1) = A j)
    (hwrap : 0 < n → B 0 = A (n - 1)) :
    ∑ j ∈ Finset.range n, A j = ∑ j ∈ Finset.range n, B j := by
  cases n with
  | zero => simp
  | succ m =>
    rw [Finset.sum_range_succ, Finset.sum_range_succ']
    have h0 : B 0 = A m := by simpa using hwrap (by omega)
    have hsum : ∑ j ∈ Finset.range m, B (j + 1) = ∑ j ∈ Finset.range m, A j :=
      Finset.sum_congr rfl (fun j hj => hpair j (by simp at hj; omega))
    rw [h0, hsum]

/-! ## Characterization of Scheme::speed -/

/-- The v_neg window built inside Scheme::speed. -/
def speedVneg (sim : Simluation) (eq : Equation) (ext : ℕ) : List ℚ :=
  (izip3 ((sim.get_u (ext + 1)).drop ext)
    ((diffList (sim.get_u (ext + 1))).take (sim.len + ext * 2))
    ((diffList (sim.get_f eq (ext + 1))).take (sim.len + ext * 2))).map
    (compute_v eq sim.dt_over_dx)

/-- The v_pos window built inside Scheme::speed. -/
def speedVpos (sim : Simluation) (eq : Equation) (ext : ℕ) : List ℚ :=
  (izip3 ((sim.get_u (ext + 1)).drop 1)
    ((diffList (sim.get_u (ext + 1))).drop 1)
    ((diffList (sim.get_f eq (ext + 1))).drop 1)).map
    (compute_v eq sim.dt_over_dx)

lemma speed_eq_ite (sim : Simluation) (eq : Equation) (ext : ℕ) :
    Scheme.speed sim eq ext =
      if (speedVpos sim eq ext).all (fun v => |v| ≤ 1) ∧
          (speedVneg sim eq ext).all (fun v => |v| ≤ 1) ∧
          (speedVneg sim eq ext).length = (speedVpos sim eq ext).length ∧
          (speedVpos sim eq ext).length = sim.len + 2 * ext then
        some (speedVneg sim eq ext, speedVpos sim eq ext)
      else
        none := rfl

lemma length_speedVpos (sim : Simluation) (eq : Equation) (ext : ℕ) :
    (speedVpos sim eq ext).length = sim.len + 2 * ext := by
  simp only [speedVpos, List.length_map, length_izip3, List.length_drop,
    length_diffList, length_get_u, Simluation.get_f, List.length_map]
  omega

lemma length_speedVneg (sim : Simluation) (eq : Equation) (ext : ℕ) (h : ext ≤ 2) :
    (speedVneg sim eq ext).length = sim.len + 2 * ext := by
  simp only [speedVneg, List.length_map, length_izip3, List.length_take, List.length_drop,
    length_diffList, length_get_u, Simluation.get_f, List.length_map]
  omega

lemma getD_speedVpos (sim : Simluation) (eq : Equation) (ext i : ℕ)
    (hi : i < sim.len + 2 * ext) :
    (speedVpos sim eq ext).getD i 0 =
      compute_v eq sim.dt_over_dx
        ((sim.get_u (ext + 1)).getD (i + 1) 0,
         (diffList (sim.get_u (ext + 1))).getD (i + 1) 0,
         (diffList (sim.get_f eq (ext + 1))).getD (i + 1) 0) := by
  have hlen : i < (izip3 ((sim.get_u (ext + 1)).drop 1)
      ((diffList (sim.get_u (ext + 1))).drop 1)
      ((diffList (sim.get_f eq (ext + 1))).drop 1)).length := by
    simp only [length_izip3, List.length_drop, length_diffList, length_get_u,
      Simluation.get_f, List.length_map]
    omega
  rw [speedVpos, getD_map_izip3 _ _ _ _ _ hlen, getD_drop, getD_drop, getD_drop]
  simp only [Nat.add_comm 1 i]

lemma getD_speedVneg (sim : Simluation) (eq : Equation) (ext i : ℕ) (hext : ext ≤ 2)
    (hi : i < sim.len + 2 * ext) :
    (speedVneg sim eq ext).getD i 0 =
      compute_v eq sim.dt_over_dx
        ((sim.get_u (ext + 1)).getD (i + ext) 0,
         (diffList (sim.get_u (ext + 1))).getD i 0,
         (diffList (sim.get_f eq (ext + 1))).getD i 0) := by
  have hlen : i < (izip3 ((sim.get_u (ext + 1)).drop ext)
      ((diffList (sim.get_u (ext + 1))).take (sim.len + ext * 2))
      ((diffList (sim.get_f eq (ext + 1))).take (sim.len + ext * 2))).length := by
    simp only [length_izip3, List.length_take, List.length_drop, length_diffList,
      length_get_u, Simluation.get_f, List.length_map]
    omega
  rw [speedVneg, getD_map_izip3 _ _ _ _ _ hlen, getD_drop,
    getD_take _ _ _ (by omega), getD_take _ _ _ (by omega)]
  simp only [Nat.add_comm ext i]

lemma speed_some_iff (sim : Simluation) (eq : Equation) (ext : ℕ) (vn vp : List ℚ) :
    Scheme.speed sim eq ext = some (vn, vp) ↔
      ((speedVpos sim eq ext).all (fun v => |v| ≤ 1) ∧
        (speedVneg sim eq ext).all (fun v => |v| ≤ 1) ∧
        (speedVneg sim eq ext).length = (speedVpos sim eq ext).length ∧
        (speedVpos sim eq ext).length = sim.len + 2 * ext) ∧
      vn = speedVneg sim eq ext ∧ vp = speedVpos sim eq ext := by
  rw [speed_eq_ite]
  split
  · rename_i hcond
    simp only [Option.some.injEq, Prod.mk.injEq]
    constructor
    · rintro ⟨h1, h2⟩
      exact ⟨hcond, h1.symm, h2.symm⟩
    · rintro ⟨_, h1, h2⟩
      exact ⟨h1.symm, h2.symm⟩
  · rename_i hcond
    constructor
    · intro h
      cases h
    · rintro ⟨hc, _, _⟩
      exact absurd hc hcond

/-- The sanity checks of Scheme::speed force ext at most 2 on success. -/
lemma speed_some_ext_le (sim : Simluation) (eq : Equation) (ext : ℕ) (vn vp : List ℚ)
    (h : Scheme.speed sim eq ext = some (vn, vp)) : ext ≤ 2 := by
  rcases (speed_some_iff sim eq ext vn vp).mp h with ⟨⟨_, _, hlen, hlen'⟩, _, _⟩
  by_contra hgt
  rw [length_speedVpos] at hlen
  simp only [speedVneg, List.length_map, length_izip3, List.length_take, List.length_drop,
    length_diffList, length_get_u, Simluation.get_f, List.length_map] at hlen
  omega

/-- The v_pos window getD as a value of the interface speed sequence. -/
lemma speedVpos_getD_interfaceV (sim : Simluation) (eq : Equation) (ext i : ℕ)
    (hi : i < sim.len + 2 * ext) :
    (speedVpos sim eq ext).getD i 0
      = interfaceV eq sim.dt_over_dx (sim.get_u (ext + 1)) (i + 1) := by
  rw [getD_speedVpos sim eq ext i hi]
  rfl

/-- The v_neg window getD as a value of the interface speed sequence, for
the halo widths the schemes use (ext at most 1): when du = 0 the fallback
argument u[i+ext] coincides with u[i] because the two adjacent cells are
equal. -/
lemma speedVneg_getD_interfaceV (sim : Simluation) (eq : Equation) (ext i : ℕ)
    (hext : ext ≤ 1) (hi : i < sim.len + 2 * ext) :
    (speedVneg sim eq ext).getD i 0
      = interfaceV eq sim.dt_over_dx (sim.get_u (ext + 1)) i := by
  rw [getD_speedVneg sim eq ext i (by omega) hi]
  rw [interfaceV]
  show compute_v eq sim.dt_over_dx _ = compute_v eq sim.dt_over_dx _
  interval_cases ext
  · rfl
  · -- ext = 1: the u-argument differs only when it cannot matter
    have hrange : i + 1 < (sim.get_u 2).length := by
      rw [length_get_u]
      omega
    have hdu : (diffList (sim.get_u 2)).getD i 0 =
        (sim.get_u 2).getD (i + 1) 0 - (sim.get_u 2).getD i 0 :=
      getD_diffList _ _ hrange
    by_cases h0 : (diffList (sim.get_u 2)).getD i 0 = 0
    · have hu : (sim.get_u 2).getD (i + 1) 0 = (sim.get_u 2).getD i 0 := by
        rw [hdu] at h0
        linarith
      simp only [compute_v, Simluation.get_f, h0, if_pos rfl, hu]
    · simp only [compute_v, if_neg h0, Simluation.get_f]

/-- The interface value of the v_pos window. -/
lemma speed_vpos_interfaceV (sim : Simluation) (eq : Equation) (ext : ℕ) (vn vp : List ℚ)
    (h : Scheme.speed sim eq ext = some (vn, vp)) (i : ℕ) (hi : i < sim.len + 2 * ext) :
    vp.getD i 0 = interfaceV eq sim.dt_over_dx (sim.get_u (ext + 1)) (i + 1) := by
  rcases (speed_some_iff sim eq ext vn vp).mp h with ⟨_, _, hvp⟩
  rw [hvp, speedVpos_getD_interfaceV sim eq ext i hi]

/-- The interface value of the v_neg window (ext at most 1). -/
lemma speed_vneg_interfaceV (sim : Simluation) (eq : Equation) (ext : ℕ) (vn vp : List ℚ)
    (h : Scheme.speed sim eq ext = some (vn, vp)) (hext : ext ≤ 1) (i : ℕ)
    (hi : i < sim.len + 2 * ext) :
    vn.getD i 0 = interfaceV eq sim.dt_over_dx (sim.get_u (ext + 1)) i := by
  rcases (speed_some_iff sim eq ext vn vp).mp h with ⟨_, hvn, _⟩
  rw [hvn, speedVneg_getD_interfaceV sim eq ext i hext hi]

lemma speed_lengths (sim : Simluation) (eq : Equation) (ext : ℕ) (vn vp : List ℚ)
    (h : Scheme.speed sim eq ext = some (vn, vp)) :
    vn.length = sim.len + 2 * ext ∧ vp.length = sim.len + 2 * ext := by
  rcases (speed_some_iff sim eq ext vn vp).mp h with ⟨⟨_, _, h1, h2⟩, hvn, hvp⟩
  rw [hvn, hvp]
  have he := speed_some_ext_le sim eq ext vn vp h
  exact ⟨length_speedVneg sim eq ext he, length_speedVpos sim eq ext⟩

/-! ## Characterization of the four flux computations -/

lemma upwind_flux_some_spec (sim : Simluation) (eq : Equation) (hn hp : List ℚ)
    (h : Upwind.flux sim eq = some (hn, hp)) :
    ∃ vn vp, Scheme.speed sim eq 0 = some (vn, vp) ∧
      hn.length = sim.len ∧ hp.length = sim.len ∧
      (∀ j, j < sim.len →
        hp.getD j 0 = if 0 < vp.getD j 0 then (sim.get_f eq 1).getD (j + 1) 0
          else (sim.get_f eq 1).getD (j + 2) 0) ∧
      (∀ j, j < sim.len →
        hn.getD j 0 = if vn.getD j 0 < 0 then (sim.get_f eq 1).getD (j + 1) 0
          else (sim.get_f eq 1).getD j 0) := by
  cases hs : Scheme.speed sim eq 0 with
  | none =>
    unfold Upwind.flux at h
    rw [hs] at h
    cases h
  | some vv =>
    obtain ⟨vn, vp⟩ := vv
    unfold Upwind.flux at h
    simp only [hs] at h
    split at h
    · rename_i hcond
      simp only [Option.some.injEq, Prod.mk.injEq] at h
      obtain ⟨h1, h2⟩ := h
      subst h1
      subst h2
      obtain ⟨hvn, hvp⟩ := speed_lengths sim eq 0 vn vp hs
      have hflen : (sim.get_f eq 1).length = sim.len + 2 := by
        simp only [Simluation.get_f, List.length_map, length_get_u]
      refine ⟨vn, vp, rfl, hcond.2, hcond.1 ▸ hcond.2, ?_, ?_⟩
      · intro j hj
        have hjz : j < (izip3 vp ((sim.get_f eq 1).drop 1) ((sim.get_f eq 1).drop 2)).length := by
          simp only [length_izip3, List.length_drop, hflen, hvp]
          omega
        rw [getD_map_izip3 _ _ _ _ _ hjz, getD_drop, getD_drop]
        simp only [Nat.add_comm 1 j, Nat.add_comm 2 j]
      · intro j hj
        have hjz : j < (izip3 vn ((sim.get_f eq 1).drop 1) (sim.get_f eq 1)).length := by
          simp only [length_izip3, List.length_drop, hflen, hvn]
          omega
        rw [getD_map_izip3 _ _ _ _ _ hjz, getD_drop]
        simp only [Nat.add_comm 1 j]
    · cases h

lemma beamWarming_flux_some_spec (sim : Simluation) (eq : Equation) (hn hp : List ℚ)
    (h : BeamWarming.flux sim eq = some (hn, hp)) :
    ∃ vn vp, Scheme.speed sim eq 1 = some (vn, vp) ∧
      hn.length = sim.len ∧ hp.length = sim.len ∧
      (∀ j, j < sim.len →
        hp.getD j 0 = beamWarmingCell
          (vn.getD (j + 1) 0, vp.getD (j + 1) 0, vp.getD (j + 2) 0,
           (sim.get_f eq 2).getD (j + 1) 0, (sim.get_f eq 2).getD (j + 2) 0,
           (sim.get_f eq 2).getD (j + 3) 0, (sim.get_f eq 2).getD (j + 4) 0)) ∧
      (∀ j, j < sim.len →
        hn.getD j 0 = beamWarmingCell
          (vn.getD j 0, vn.getD (j + 1) 0, vp.getD (j + 1) 0,
           (sim.get_f eq 2).getD j 0, (sim.get_f eq 2).getD (j + 1) 0,
           (sim.get_f eq 2).getD (j + 2) 0, (sim.get_f eq 2).getD (j + 3) 0)) := by
  cases hs : Scheme.speed sim eq 1 with
  | none =>
    unfold BeamWarming.flux at h
    rw [hs] at h
    cases h
  | some vv =>
    obtain ⟨vn, vp⟩ := vv
    unfold BeamWarming.flux at h
    simp only [hs] at h
    split at h
    · rename_i hcond
      simp only [Option.some.injEq, Prod.mk.injEq] at h
      obtain ⟨h1, h2⟩ := h
      subst h1
      subst h2
      obtain ⟨hvn, hvp⟩ := speed_lengths sim eq 1 vn vp hs
      have hflen : (sim.get_f eq 2).length = sim.len + 4 := by
        simp only [Simluation.get_f, List.length_map, length_get_u]
      refine ⟨vn, vp, rfl, hcond.2, hcond.1 ▸ hcond.2, ?_, ?_⟩
      · intro j hj
        have hjz : j < (izip7 (vn.drop 1) (vp.drop 1) (vp.drop 2)
            ((sim.get_f eq 2).drop 1) ((sim.get_f eq 2).drop 2)
            ((sim.get_f eq 2).drop 3) ((sim.get_f eq 2).drop 4)).length := by
          simp only [length_izip7, List.length_drop, hflen, hvn, hvp]
          omega
        rw [getD_map_izip7 _ _ _ _ _ _ _ _ _ hjz, getD_drop, getD_drop, getD_drop,
          getD_drop, getD_drop, getD_drop, getD_drop]
        simp only [Nat.add_comm 1 j, Nat.add_comm 2 j, Nat.add_comm 3 j, Nat.add_comm 4 j]
      · intro j hj
        rw [List.map_take]
        rw [getD_take _ _ _ hj]
        have hjz : j < (izip7 vn (vn.drop 1) (vp.drop 1)
            (sim.get_f eq 2) ((sim.get_f eq 2).drop 1)
            ((sim.get_f eq 2).drop 2) ((sim.get_f eq 2).drop 3)).length := by
          simp only [length_izip7, List.length_drop, hflen, hvn, hvp]
          omega
        rw [getD_map_izip7 _ _ _ _ _ _ _ _ _ hjz, getD_drop, getD_drop, getD_drop,
          getD_drop, getD_drop]
        simp only [Nat.add_comm 1 j, Nat.add_comm 2 j, Nat.add_comm 3 j]
    · cases h

lemma laxWendroff_flux_eq_some (sim : Simluation) (eq : Equation) :
    ∃ hn hp, LaxWendroff.flux sim eq = some (hn, hp) := by
  unfold LaxWendroff.flux
  dsimp only []
  split
  · exact ⟨_, _, rfl⟩
  · rename_i hcond
    exfalso
    apply hcond
    constructor <;>
      simp only [List.length_map, length_izip4, List.length_drop, List.length_take,
        length_get_u, Simluation.get_f, Simluation.len] <;> omega

lemma laxWendroff_flux_some_spec (sim : Simluation) (eq : Equation) (hn hp : List ℚ)
    (h : LaxWendroff.flux sim eq = some (hn, hp)) :
    hn.length = sim.len ∧ hp.length = sim.len ∧
      (∀ j, j < sim.len →
        hp.getD j 0 = eq.f (((sim.get_u 1).getD (j + 2) 0 + (sim.get_u 1).getD (j + 1) 0
          - sim.dt_over_dx * ((sim.get_f eq 1).getD (j + 2) 0
            - (sim.get_f eq 1).getD (j + 1) 0)) / 2)) ∧
      (∀ j, j < sim.len →
        hn.getD j 0 = eq.f (((sim.get_u 1).getD (j + 1) 0 + (sim.get_u 1).getD j 0
          - sim.dt_over_dx * ((sim.get_f eq 1).getD (j + 1) 0
            - (sim.get_f eq 1).getD j 0)) / 2)) := by
  unfold LaxWendroff.flux at h
  dsimp only [] at h
  split at h
  · rename_i hcond
    simp only [Option.some.injEq, Prod.mk.injEq] at h
    obtain ⟨h1, h2⟩ := h
    subst h1
    subst h2
    have hulen : (sim.get_u 1).length = sim.len + 2 := length_get_u sim 1
    have hflen : (sim.get_f eq 1).length = sim.len + 2 := by
      simp only [Simluation.get_f, List.length_map, length_get_u]
    refine ⟨hcond.2, hcond.1 ▸ hcond.2, ?_, ?_⟩
    · intro j hj
      have hjz : j < (izip4 ((sim.get_u 1).drop 1) ((sim.get_u 1).drop 2)
          ((sim.get_f eq 1).drop 1) ((sim.get_f eq 1).drop 2)).length := by
        simp only [length_izip4, List.length_drop, hulen, hflen]
        omega
      rw [getD_map_izip4 _ _ _ _ _ _ hjz, getD_drop, getD_drop, getD_drop, getD_drop]
      simp only [Nat.add_comm 1 j, Nat.add_comm 2 j]
    · intro j hj
      have hjz : j < (izip4 ((sim.get_u 1).drop 1) ((sim.get_u 1).take sim.len)
          ((sim.get_f eq 1).drop 1) ((sim.get_f eq 1).take sim.len)).length := by
        simp only [length_izip4, List.length_drop, List.length_take, hulen, hflen]
        omega
      rw [getD_map_izip4 _ _ _ _ _ _ hjz, getD_drop, getD_drop,
        getD_take _ _ _ hj, getD_take _ _ _ hj]
      simp only [Nat.add_comm 1 j]
  · cases h

lemma laxFriedrichs_flux_eq_some (sim : Simluation) (eq : Equation) :
    ∃ hn hp, LaxFriedrichs.flux sim eq = some (hn, hp) := by
  unfold LaxFriedrichs.flux
  dsimp only []
  split
  · exact ⟨_, _, rfl⟩
  · rename_i hcond
    exfalso
    apply hcond
    constructor <;>
      simp only [List.length_map, length_izip4, List.length_drop, List.length_take,
        length_get_u, Simluation.get_f, Simluation.len] <;> omega

lemma laxFriedrichs_flux_some_spec (sim : Simluation) (eq : Equation) (hn hp : List ℚ)
    (h : LaxFriedrichs.flux sim eq = some (hn, hp)) :
    hn.length = sim.len ∧ hp.length = sim.len ∧
      (∀ j, j < sim.len →
        hp.getD j 0 = (((sim.get_f eq 1).getD (j + 2) 0 + (sim.get_f eq 1).getD (j + 1) 0)
          - sim.dt_over_dx * ((sim.get_u 1).getD (j + 2) 0 - (sim.get_u 1).getD (j + 1) 0)) / 2) ∧
      (∀ j, j < sim.len →
        hn.getD j 0 = (((sim.get_f eq 1).getD (j + 1) 0 + (sim.get_f eq 1).getD j 0)
          - sim.dt_over_dx * ((sim.get_u 1).getD (j + 1) 0 - (sim.get_u 1).getD j 0)) / 2) := by
  unfold LaxFriedrichs.flux at h
  dsimp only [] at h
  split at h
  · rename_i hcond
    simp only [Option.some.injEq, Prod.mk.injEq] at h
    obtain ⟨h1, h2⟩ := h
    subst h1
    subst h2
    have hulen : (sim.get_u 1).length = sim.len + 2 := length_get_u sim 1
    have hflen : (sim.get_f eq 1).length = sim.len + 2 := by
      simp only [Simluation.get_f, List.length_map, length_get_u]
    refine ⟨hcond.2, hcond.1 ▸ hcond.2, ?_, ?_⟩
    · intro j hj
      have hjz : j < (izip4 ((sim.get_u 1).drop 1) ((sim.get_u 1).drop 2)
          ((sim.get_f eq 1).drop 1) ((sim.get_f eq 1).drop 2)).length := by
        simp only [length_izip4, List.length_drop, hulen, hflen]
        omega
      rw [getD_map_izip4 _ _ _ _ _ _ hjz, getD_drop, getD_drop, getD_drop, getD_drop]
      simp only [Nat.add_comm 1 j, Nat.add_comm 2 j]
    · intro j hj
      have hjz : j < (izip4 ((sim.get_u 1).drop 1) ((sim.get_u 1).take sim.len)
          ((sim.get_f eq 1).drop 1) ((sim.get_f eq 1).take sim.len)).length := by
        simp only [length_izip4, List.length_drop, List.length_take, hulen, hflen]
        omega
      rw [getD_map_izip4 _ _ _ _ _ _ hjz, getD_drop, getD_drop,
        getD_take _ _ _ hj, getD_take _ _ _ hj]
      simp only [Nat.add_comm 1 j]
  · cases h

/-- Every successful flux returns two vectors of the physical length N. -/
lemma flux_some_lengths (k : SchemeKind) (sim : Simluation) (eq : Equation)
    (hn hp : List ℚ) (h : k.flux sim eq = some (hn, hp)) :
    hn.length = sim.len ∧ hp.length = sim.len := by
  cases k with
  | upwind =>
    obtain ⟨_, _, _, h1, h2, _⟩ := upwind_flux_some_spec sim eq hn hp h
    exact ⟨h1, h2⟩
  | beamWarming =>
    obtain ⟨_, _, _, h1, h2, _⟩ := beamWarming_flux_some_spec sim eq hn hp h
    exact ⟨h1, h2⟩
  | laxWendroff =>
    obtain ⟨h1, h2, _⟩ := laxWendroff_flux_some_spec sim eq hn hp h
    exact ⟨h1, h2⟩
  | laxFriedrichs =>
    obtain ⟨h1, h2, _⟩ := laxFriedrichs_flux_some_spec sim eq hn hp h
    exact ⟨h1, h2⟩

/-! ## The shared conservative update -/

lemma run_eq_of_flux (k : SchemeKind) (sim : Simluation) (eq : Equation)
    (hn hp : List ℚ) (h : k.flux sim eq = some (hn, hp)) :
    Scheme.run k sim eq = some (List.zipWith (fun a b => a - b) sim.state
      ((List.zipWith (fun a b => a - b) hp hn).map (fun x => sim.dt_over_dx * x))) := by
  rw [Scheme.run, h]
  rfl

lemma run_none_iff_flux_none (k : SchemeKind) (sim : Simluation) (eq : Equation) :
    Scheme.run k sim eq = none ↔ k.flux sim eq = none := by
  rw [Scheme.run]
  cases hf : k.flux sim eq with
  | none => simp
  | some v => cases v; simp

lemma run_some_spec (k : SchemeKind) (sim : Simluation) (eq : Equation)
    (hn hp : List ℚ) (h : k.flux sim eq = some (hn, hp)) (out : List ℚ)
    (hrun : Scheme.run k sim eq = some out) :
    out.length = sim.len ∧
      ∀ j, j < sim.len →
        out.getD j 0 = sim.state.getD j 0
          - sim.dt_over_dx * (hp.getD j 0 - hn.getD j 0) := by
  obtain ⟨hln, hlp⟩ := flux_some_lengths k sim eq hn hp h
  simp only [Simluation.len] at hln hlp
  rw [run_eq_of_flux k sim eq hn hp h] at hrun
  have hout : out = List.zipWith (fun a b => a - b) sim.state
      ((List.zipWith (fun a b => a - b) hp hn).map (fun x => sim.dt_over_dx * x)) := by
    injection hrun.symm
  subst hout
  constructor
  · simp only [List.length_zipWith, List.length_map, hlp, hln, Simluation.len]
    omega
  · intro j hj
    simp only [Simluation.len] at hj
    have hjz : j < (List.zipWith (fun a b => a - b) sim.state
        ((List.zipWith (fun a b => a - b) hp hn).map (fun x => sim.dt_over_dx * x))).length := by
      simp only [List.length_zipWith, List.length_map, hlp, hln]
      omega
    rw [getD_zipWith _ _ _ _ hjz]
    have hjm : j < (List.zipWith (fun a b => a - b) hp hn).length := by
      simp only [List.length_zipWith, hlp, hln]
      omega
    rw [getD_map_eqf _ _ _ hjm, getD_zipWith _ _ _ _ hjm]

/-- Sum form of the conservative update. -/
lemma run_some_sum (k : SchemeKind) (sim : Simluation) (eq : Equation)
    (hn hp : List ℚ) (h : k.flux sim eq = some (hn, hp)) (out : List ℚ)
    (hrun : Scheme.run k sim eq = some out) :
    out.sum = sim.state.sum - sim.dt_over_dx * (hp.sum - hn.sum) := by
  obtain ⟨hln, hlp⟩ := flux_some_lengths k sim eq hn hp h
  rw [run_eq_of_flux k sim eq hn hp h] at hrun
  have hout : out = List.zipWith (fun a b => a - b) sim.state
      ((List.zipWith (fun a b => a - b) hp hn).map (fun x => sim.dt_over_dx * x)) := by
    injection hrun.symm
  subst hout
  rw [sum_zipWith_sub _ _ (by simp only [List.length_map, List.length_zipWith,
    hlp, hln, Simluation.len]; omega)]
  rw [sum_map_mul, sum_zipWith_sub _ _ (by rw [hlp, hln])]

/-! ## Interface-speed lemmas for the conservation argument -/

/-- A vanishing interface speed forces equal adjacent flux values whenever
dt/dx is nonzero: either the state difference is zero (equal states, hence
equal fluxes) or the flux difference itself is zero. -/
lemma interfaceV_zero_flux_eq (sim : Simluation) (eq : Equation) (E t : ℕ)
    (hl : sim.dt_over_dx ≠ 0) (ht : t + 1 < (sim.get_u E).length)
    (hV : interfaceV eq sim.dt_over_dx (sim.get_u E) t = 0) :
    (sim.get_f eq E).getD (t + 1) 0 = (sim.get_f eq E).getD t 0 := by
  have hfe : sim.get_f eq E = (sim.get_u E).map eq.f := rfl
  have htu : t < (sim.get_u E).length := by omega
  rw [interfaceV, compute_v] at hV
  simp only [mul_eq_zero] at hV
  rw [getD_diffList _ _ ht] at hV
  rcases hV with hV | hV
  · split at hV
    · rename_i hdu
      have hu : (sim.get_u E).getD (t + 1) 0 = (sim.get_u E).getD t 0 := by linarith
      rw [hfe, getD_map_eqf _ _ _ ht, getD_map_eqf _ _ _ htu, hu]
    · rename_i hdu
      have hd : (diffList ((sim.get_u E).map eq.f)).getD t 0 = 0 := by
        rcases div_eq_zero_iff.mp hV with h0 | h0
        · exact h0
        · exact absurd h0 hdu
      have ht' : t + 1 < ((sim.get_u E).map eq.f).length := by simpa using ht
      rw [getD_diffList _ _ ht'] at hd
      rw [hfe]
      linarith
  · exact absurd hV hl

/-- The interface speed sequence is N-periodic under a periodic boundary. -/
lemma interfaceV_wrap (sim : Simluation) (eq : Equation) (hb : sim.boundary = none)
    (E t : ℕ) (hE : E ≤ sim.state.length) (ht : t + 1 < 2 * E) :
    interfaceV eq sim.dt_over_dx (sim.get_u E) (t + sim.state.length)
      = interfaceV eq sim.dt_over_dx (sim.get_u E) t := by
  have hlen : (sim.get_u E).length = sim.state.length + 2 * E := by
    rw [length_get_u]
    rfl
  have h1 : t + sim.state.length + 1 < (sim.get_u E).length := by omega
  have h2 : t + 1 < (sim.get_u E).length := by omega
  have hu0 : (sim.get_u E).getD (t + sim.state.length) 0 = (sim.get_u E).getD t 0 :=
    get_u_wrap sim hb E t hE (by omega)
  have hu1 : (sim.get_u E).getD (t + sim.state.length + 1) 0
      = (sim.get_u E).getD (t + 1) 0 := by
    have := get_u_wrap sim hb E (t + 1) hE (by omega)
    have heq : t + 1 + sim.state.length = t + sim.state.length + 1 := by omega
    rw [heq] at this
    exact this
  have hdu : (diffList (sim.get_u E)).getD (t + sim.state.length) 0
      = (diffList (sim.get_u E)).getD t 0 := by
    rw [getD_diffList _ _ h1, getD_diffList _ _ h2, hu0, hu1]
  have hmap1 : t + sim.state.length + 1 < ((sim.get_u E).map eq.f).length := by
    simpa using h1
  have hmap2 : t + 1 < ((sim.get_u E).map eq.f).length := by simpa using h2
  have hdf : (diffList ((sim.get_u E).map eq.f)).getD (t + sim.state.length) 0
      = (diffList ((sim.get_u E).map eq.f)).getD t 0 := by
    rw [getD_diffList _ _ hmap1, getD_diffList _ _ hmap2]
    rw [getD_map_eqf _ _ _ (by omega), getD_map_eqf _ _ _ (by omega),
      getD_map_eqf _ _ _ (by omega), getD_map_eqf _ _ _ (by omega)]
    rw [hu0, hu1]
  rw [interfaceV, interfaceV, hu0, hdu, hdf]

/-- The extended flux array is N-periodic under a periodic boundary. -/
lemma get_f_wrap (sim : Simluation) (eq : Equation) (hb : sim.boundary = none)
    (E p : ℕ) (hE : E ≤ sim.state.length) (hp : p + sim.state.length < sim.state.length + 2 * E) :
    (sim.get_f eq E).getD (p + sim.state.length) 0 = (sim.get_f eq E).getD p 0 := by
  have hlen : (sim.get_u E).length = sim.state.length + 2 * E := by
    rw [length_get_u]
    rfl
  have hfe : sim.get_f eq E = (sim.get_u E).map eq.f := rfl
  rw [hfe, getD_map_eqf _ _ _ (by omega), getD_map_eqf _ _ _ (by omega),
    get_u_wrap sim hb E p hE hp]

/-! ## Flux-sum balance per scheme (periodic boundary) -/

lemma upwind_flux_sums (sim : Simluation) (eq : Equation) (hn hp : List ℚ)
    (hb : sim.boundary = none) (h1 : 1 ≤ sim.len) (hl : sim.dt_over_dx ≠ 0)
    (h : Upwind.flux sim eq = some (hn, hp)) : hp.sum = hn.sum := by
  obtain ⟨vn, vp, hs, hlnn, hlpp, hfp, hfn⟩ := upwind_flux_some_spec sim eq hn hp h
  have hsl : sim.len = sim.state.length := rfl
  have hulen : (sim.get_u 1).length = sim.len + 2 := length_get_u sim 1
  have hA : ∀ j, j < sim.len → hp.getD j 0 =
      (if 0 < interfaceV eq sim.dt_over_dx (sim.get_u 1) (j + 1)
       then (sim.get_f eq 1).getD (j + 1) 0 else (sim.get_f eq 1).getD (j + 2) 0) := by
    intro j hj
    rw [hfp j hj, speed_vpos_interfaceV sim eq 0 vn vp hs j (by omega)]
  have hB : ∀ j, j < sim.len → hn.getD j 0 =
      (if interfaceV eq sim.dt_over_dx (sim.get_u 1) j < 0
       then (sim.get_f eq 1).getD (j + 1) 0 else (sim.get_f eq 1).getD j 0) := by
    intro j hj
    rw [hfn j hj, speed_vneg_interfaceV sim eq 0 vn vp hs (by omega) j (by omega)]
  rw [list_sum_eq_range_sum hp sim.len
      (fun j => if 0 < interfaceV eq sim.dt_over_dx (sim.get_u 1) (j + 1)
        then (sim.get_f eq 1).getD (j + 1) 0 else (sim.get_f eq 1).getD (j + 2) 0)
      hlpp hA,
    list_sum_eq_range_sum hn sim.len
      (fun j => if interfaceV eq sim.dt_over_dx (sim.get_u 1) j < 0
        then (sim.get_f eq 1).getD (j + 1) 0 else (sim.get_f eq 1).getD j 0)
      hlnn hB]
  apply wrap_pair_sum
  · -- interior pairing: h_neg at j+1 equals h_pos at j
    intro j hj
    show (if interfaceV eq sim.dt_over_dx (sim.get_u 1) (j + 1) < 0
        then (sim.get_f eq 1).getD (j + 1 + 1) 0 else (sim.get_f eq 1).getD (j + 1) 0)
      = (if 0 < interfaceV eq sim.dt_over_dx (sim.get_u 1) (j + 1)
        then (sim.get_f eq 1).getD (j + 1) 0 else (sim.get_f eq 1).getD (j + 2) 0)
    have e1 : j + 1 + 1 = j + 2 := by omega
    rw [e1]
    rcases lt_trichotomy (interfaceV eq sim.dt_over_dx (sim.get_u 1) (j + 1)) 0 with hv | hv | hv
    · rw [if_pos hv, if_neg (by linarith)]
    · rw [if_neg (by rw [hv]; exact lt_irrefl 0), if_neg (by rw [hv]; exact lt_irrefl 0)]
      exact (interfaceV_zero_flux_eq sim eq 1 (j + 1) hl (by omega) hv).symm
    · rw [if_neg (by linarith), if_pos hv]
  · -- periodic wrap: h_neg at 0 equals h_pos at N-1
    intro hpos
    show (if interfaceV eq sim.dt_over_dx (sim.get_u 1) 0 < 0
        then (sim.get_f eq 1).getD 1 0 else (sim.get_f eq 1).getD 0 0)
      = (if 0 < interfaceV eq sim.dt_over_dx (sim.get_u 1) (sim.len - 1 + 1)
        then (sim.get_f eq 1).getD (sim.len - 1 + 1) 0
        else (sim.get_f eq 1).getD (sim.len - 1 + 2) 0)
    have e1 : sim.len - 1 + 1 = sim.len := by omega
    have e2 : sim.len - 1 + 2 = sim.len + 1 := by omega
    rw [e1, e2]
    have hVw : interfaceV eq sim.dt_over_dx (sim.get_u 1) sim.len
        = interfaceV eq sim.dt_over_dx (sim.get_u 1) 0 := by
      have := interfaceV_wrap sim eq hb 1 0 (by omega) (by omega)
      rw [Nat.zero_add] at this
      rw [hsl]
      exact this
    have hf0 : (sim.get_f eq 1).getD sim.len 0 = (sim.get_f eq 1).getD 0 0 := by
      have := get_f_wrap sim eq hb 1 0 (by omega) (by omega)
      rw [Nat.zero_add] at this
      rw [hsl]
      exact this
    have hf1 : (sim.get_f eq 1).getD (sim.len + 1) 0 = (sim.get_f eq 1).getD 1 0 := by
      have := get_f_wrap sim eq hb 1 1 (by omega) (by omega)
      have heq : 1 + sim.state.length = sim.state.length + 1 := by omega
      rw [heq] at this
      rw [hsl]
      exact this
    rw [hVw, hf0, hf1]
    rcases lt_trichotomy (interfaceV eq sim.dt_over_dx (sim.get_u 1) 0) 0 with hv | hv | hv
    · rw [if_pos hv, if_neg (by linarith)]
    · rw [if_neg (by rw [hv]; exact lt_irrefl 0), if_neg (by rw [hv]; exact lt_irrefl 0)]
      exact (interfaceV_zero_flux_eq sim eq 1 0 hl (by omega) hv).symm
    · rw [if_neg (by linarith), if_pos hv]

lemma lw_flux_sums (sim : Simluation) (eq : Equation) (hn hp : List ℚ)
    (hb : sim.boundary = none) (h1 : 1 ≤ sim.len)
    (h : LaxWendroff.flux sim eq = some (hn, hp)) : hp.sum = hn.sum := by
  obtain ⟨hlnn, hlpp, hfp, hfn⟩ := laxWendroff_flux_some_spec sim eq hn hp h
  have hsl : sim.len = sim.state.length := rfl
  rw [list_sum_eq_range_sum hp sim.len
      (fun j => eq.f (((sim.get_u 1).getD (j + 2) 0 + (sim.get_u 1).getD (j + 1) 0
        - sim.dt_over_dx * ((sim.get_f eq 1).getD (j + 2) 0
          - (sim.get_f eq 1).getD (j + 1) 0)) / 2)) hlpp hfp,
    list_sum_eq_range_sum hn sim.len
      (fun j => eq.f (((sim.get_u 1).getD (j + 1) 0 + (sim.get_u 1).getD j 0
        - sim.dt_over_dx * ((sim.get_f eq 1).getD (j + 1) 0
          - (sim.get_f eq 1).getD j 0)) / 2)) hlnn hfn]
  apply wrap_pair_sum
  · intro j hj
    rfl
  · intro hpos
    show eq.f (((sim.get_u 1).getD 1 0 + (sim.get_u 1).getD 0 0
        - sim.dt_over_dx * ((sim.get_f eq 1).getD 1 0 - (sim.get_f eq 1).getD 0 0)) / 2)
      = eq.f (((sim.get_u 1).getD (sim.len - 1 + 2) 0 + (sim.get_u 1).getD (sim.len - 1 + 1) 0
        - sim.dt_over_dx * ((sim.get_f eq 1).getD (sim.len - 1 + 2) 0
          - (sim.get_f eq 1).getD (sim.len - 1 + 1) 0)) / 2)
    have e1 : sim.len - 1 + 1 = sim.len := by omega
    have e2 : sim.len - 1 + 2 = sim.len + 1 := by omega
    rw [e1, e2]
    have hu0 : (sim.get_u 1).getD sim.len 0 = (sim.get_u 1).getD 0 0 := by
      have := get_u_wrap sim hb 1 0 (by omega) (by omega)
      rw [Nat.zero_add] at this
      rw [hsl]
      exact this
    have hu1 : (sim.get_u 1).getD (sim.len + 1) 0 = (sim.get_u 1).getD 1 0 := by
      have := get_u_wrap sim hb 1 1 (by omega) (by omega)
      have heq : 1 + sim.state.length = sim.len + 1 := by omega
      rw [heq] at this
      exact this
    have hf0 : (sim.get_f eq 1).getD sim.len 0 = (sim.get_f eq 1).getD 0 0 := by
      have := get_f_wrap sim eq hb 1 0 (by omega) (by omega)
      rw [Nat.zero_add] at this
      rw [hsl]
      exact this
    have hf1 : (sim.get_f eq 1).getD (sim.len + 1) 0 = (sim.get_f eq 1).getD 1 0 := by
      have := get_f_wrap sim eq hb 1 1 (by omega) (by omega)
      have heq : 1 + sim.state.length = sim.len + 1 := by omega
      rw [heq] at this
      exact this
    rw [hu0, hu1, hf0, hf1]

lemma lf_flux_sums (sim : Simluation) (eq : Equation) (hn hp : List ℚ)
    (hb : sim.boundary = none) (h1 : 1 ≤ sim.len)
    (h : LaxFriedrichs.flux sim eq = some (hn, hp)) : hp.sum = hn.sum := by
  obtain ⟨hlnn, hlpp, hfp, hfn⟩ := laxFriedrichs_flux_some_spec sim eq hn hp h
  have hsl : sim.len = sim.state.length := rfl
  rw [list_sum_eq_range_sum hp sim.len
      (fun j => (((sim.get_f eq 1).getD (j + 2) 0 + (sim.get_f eq 1).getD (j + 1) 0)
        - sim.dt_over_dx * ((sim.get_u 1).getD (j + 2) 0
          - (sim.get_u 1).getD (j + 1) 0)) / 2) hlpp hfp,
    list_sum_eq_range_sum hn sim.len
      (fun j => (((sim.get_f eq 1).getD (j + 1) 0 + (sim.get_f eq 1).getD j 0)
        - sim.dt_over_dx * ((sim.get_u 1).getD (j + 1) 0
          - (sim.get_u 1).getD j 0)) / 2) hlnn hfn]
  apply wrap_pair_sum
  · intro j hj
    rfl
  · intro hpos
    show (((sim.get_f eq 1).getD 1 0 + (sim.get_f eq 1).getD 0 0)
        - sim.dt_over_dx * ((sim.get_u 1).getD 1 0 - (sim.get_u 1).getD 0 0)) / 2
      = (((sim.get_f eq 1).getD (sim.len - 1 + 2) 0 + (sim.get_f eq 1).getD (sim.len - 1 + 1) 0)
        - sim.dt_over_dx * ((sim.get_u 1).getD (sim.len - 1 + 2) 0
          - (sim.get_u 1).getD (sim.len - 1 + 1) 0)) / 2
    have e1 : sim.len - 1 + 1 = sim.len := by omega
    have e2 : sim.len - 1 + 2 = sim.len + 1 := by omega
    rw [e1, e2]
    have hu0 : (sim.get_u 1).getD sim.len 0 = (sim.get_u 1).getD 0 0 := by
      have := get_u_wrap sim hb 1 0 (by omega) (by omega)
      rw [Nat.zero_add] at this
      rw [hsl]
      exact this
    have hu1 : (sim.get_u 1).getD (sim.len + 1) 0 = (sim.get_u 1).getD 1 0 := by
      have := get_u_wrap sim hb 1 1 (by omega) (by omega)
      have heq : 1 + sim.state.length = sim.len + 1 := by omega
      rw [heq] at this
      exact this
    have hf0 : (sim.get_f eq 1).getD sim.len 0 = (sim.get_f eq 1).getD 0 0 := by
      have := get_f_wrap sim eq hb 1 0 (by omega) (by omega)
      rw [Nat.zero_add] at this
      rw [hsl]
      exact this
    have hf1 : (sim.get_f eq 1).getD (sim.len + 1) 0 = (sim.get_f eq 1).getD 1 0 := by
      have := get_f_wrap sim eq hb 1 1 (by omega) (by omega)
      have heq : 1 + sim.state.length = sim.len + 1 := by omega
      rw [heq] at this
      exact this
    rw [hu0, hu1, hf0, hf1]

lemma bw_flux_sums (sim : Simluation) (eq : Equation) (hn hp : List ℚ)
    (hb : sim.boundary = none) (h2 : 2 ≤ sim.len)
    (h : BeamWarming.flux sim eq = some (hn, hp)) : hp.sum = hn.sum := by
  obtain ⟨vn, vp, hs, hlnn, hlpp, hfp, hfn⟩ := beamWarming_flux_some_spec sim eq hn hp h
  have hsl : sim.len = sim.state.length := rfl
  have hA : ∀ j, j < sim.len → hp.getD j 0 = beamWarmingCell
      (interfaceV eq sim.dt_over_dx (sim.get_u 2) (j + 1),
       interfaceV eq sim.dt_over_dx (sim.get_u 2) (j + 2),
       interfaceV eq sim.dt_over_dx (sim.get_u 2) (j + 3),
       (sim.get_f eq 2).getD (j + 1) 0, (sim.get_f eq 2).getD (j + 2) 0,
       (sim.get_f eq 2).getD (j + 3) 0, (sim.get_f eq 2).getD (j + 4) 0) := by
    intro j hj
    rw [hfp j hj,
      speed_vneg_interfaceV sim eq 1 vn vp hs (by omega) (j + 1) (by omega),
      speed_vpos_interfaceV sim eq 1 vn vp hs (j + 1) (by omega),
      speed_vpos_interfaceV sim eq 1 vn vp hs (j + 2) (by omega)]
  have hB : ∀ j, j < sim.len → hn.getD j 0 = beamWarmingCell
      (interfaceV eq sim.dt_over_dx (sim.get_u 2) j,
       interfaceV eq sim.dt_over_dx (sim.get_u 2) (j + 1),
       interfaceV eq sim.dt_over_dx (sim.get_u 2) (j + 2),
       (sim.get_f eq 2).getD j 0, (sim.get_f eq 2).getD (j + 1) 0,
       (sim.get_f eq 2).getD (j + 2) 0, (sim.get_f eq 2).getD (j + 3) 0) := by
    intro j hj
    rw [hfn j hj,
      speed_vneg_interfaceV sim eq 1 vn vp hs (by omega) j (by omega),
      speed_vneg_interfaceV sim eq 1 vn vp hs (by omega) (j + 1) (by omega),
      speed_vpos_interfaceV sim eq 1 vn vp hs (j + 1) (by omega)]
  rw [list_sum_eq_range_sum hp sim.len
      (fun j => beamWarmingCell
        (interfaceV eq sim.dt_over_dx (sim.get_u 2) (j + 1),
         interfaceV eq sim.dt_over_dx (sim.get_u 2) (j + 2),
         interfaceV eq sim.dt_over_dx (sim.get_u 2) (j + 3),
         (sim.get_f eq 2).getD (j + 1) 0, (sim.get_f eq 2).getD (j + 2) 0,
         (sim.get_f eq 2).getD (j + 3) 0, (sim.get_f eq 2).getD (j + 4) 0)) hlpp hA,
    list_sum_eq_range_sum hn sim.len
      (fun j => beamWarmingCell
        (interfaceV eq sim.dt_over_dx (sim.get_u 2) j,
         interfaceV eq sim.dt_over_dx (sim.get_u 2) (j + 1),
         interfaceV eq sim.dt_over_dx (sim.get_u 2) (j + 2),
         (sim.get_f eq 2).getD j 0, (sim.get_f eq 2).getD (j + 1) 0,
         (sim.get_f eq 2).getD (j + 2) 0, (sim.get_f eq 2).getD (j + 3) 0)) hlnn hB]
  apply wrap_pair_sum
  · intro j hj
    rfl
  · intro hpos
    have e1 : sim.len - 1 + 1 = sim.len := by omega
    have e2 : sim.len - 1 + 2 = sim.len + 1 := by omega
    have e3 : sim.len - 1 + 3 = sim.len + 2 := by omega
    have e4 : sim.len - 1 + 4 = sim.len + 3 := by omega
    show beamWarmingCell
        (interfaceV eq sim.dt_over_dx (sim.get_u 2) 0,
         interfaceV eq sim.dt_over_dx (sim.get_u 2) 1,
         interfaceV eq sim.dt_over_dx (sim.get_u 2) 2,
         (sim.get_f eq 2).getD 0 0, (sim.get_f eq 2).getD 1 0,
         (sim.get_f eq 2).getD 2 0, (sim.get_f eq 2).getD 3 0)
      = beamWarmingCell
        (interfaceV eq sim.dt_over_dx (sim.get_u 2) (sim.len - 1 + 1),
         interfaceV eq sim.dt_over_dx (sim.get_u 2) (sim.len - 1 + 2),
         interfaceV eq sim.dt_over_dx (sim.get_u 2) (sim.len - 1 + 3),
         (sim.get_f eq 2).getD (sim.len - 1 + 1) 0, (sim.get_f eq 2).getD (sim.len - 1 + 2) 0,
         (sim.get_f eq 2).getD (sim.len - 1 + 3) 0, (sim.get_f eq 2).getD (sim.len - 1 + 4) 0)
    rw [e1, e2, e3, e4]
    have hV0 : interfaceV eq sim.dt_over_dx (sim.get_u 2) sim.len
        = interfaceV eq sim.dt_over_dx (sim.get_u 2) 0 := by
      have := interfaceV_wrap sim eq hb 2 0 (by omega) (by omega)
      rw [Nat.zero_add] at this
      rw [hsl]
      exact this
    have hV1 : interfaceV eq sim.dt_over_dx (sim.get_u 2) (sim.len + 1)
        = interfaceV eq sim.dt_over_dx (sim.get_u 2) 1 := by
      have := interfaceV_wrap sim eq hb 2 1 (by omega) (by omega)
      have heq : 1 + sim.state.length = sim.len + 1 := by omega
      rw [heq] at this
      exact this
    have hV2 : interfaceV eq sim.dt_over_dx (sim.get_u 2) (sim.len + 2)
        = interfaceV eq sim.dt_over_dx (sim.get_u 2) 2 := by
      have := interfaceV_wrap sim eq hb 2 2 (by omega) (by omega)
      have heq : 2 + sim.state.length = sim.len + 2 := by omega
      rw [heq] at this
      exact this
    have hg0 : (sim.get_f eq 2).getD sim.len 0 = (sim.get_f eq 2).getD 0 0 := by
      have := get_f_wrap sim eq hb 2 0 (by omega) (by omega)
      rw [Nat.zero_add] at this
      rw [hsl]
      exact this
    have hg1 : (sim.get_f eq 2).getD (sim.len + 1) 0 = (sim.get_f eq 2).getD 1 0 := by
      have := get_f_wrap sim eq hb 2 1 (by omega) (by omega)
      have heq : 1 + sim.state.length = sim.len + 1 := by omega
      rw [heq] at this
      exact this
    have hg2 : (sim.get_f eq 2).getD (sim.len + 2) 0 = (sim.get_f eq 2).getD 2 0 := by
      have := get_f_wrap sim eq hb 2 2 (by omega) (by omega)
      have heq : 2 + sim.state.length = sim.len + 2 := by omega
      rw [heq] at this
      exact this
    have hg3 : (sim.get_f eq 2).getD (sim.len + 3) 0 = (sim.get_f eq 2).getD 3 0 := by
      have := get_f_wrap sim eq hb 2 3 (by omega) (by omega)
      have heq : 3 + sim.state.length = sim.len + 3 := by omega
      rw [heq] at this
      exact this
    rw [hV0, hV1, hV2, hg0, hg1, hg2, hg3]

/-- Upwind::flux fails exactly when its speed estimate (at ext = 0) fails:
the sanity checks after a successful speed estimate always pass. -/
lemma upwind_flux_none_iff (sim : Simluation) (eq : Equation) :
    Upwind.flux sim eq = none ↔ Scheme.speed sim eq 0 = none := by
  cases hs : Scheme.speed sim eq 0 with
  | none =>
    constructor
    · intro _
      rfl
    · intro _
      unfold Upwind.flux
      rw [hs]
  | some vv =>
    obtain ⟨vn, vp⟩ := vv
    obtain ⟨hvn, hvp⟩ := speed_lengths sim eq 0 vn vp hs
    constructor
    · intro habs
      unfold Upwind.flux at habs
      simp only [hs] at habs
      split at habs
      · cases habs
      · rename_i hcond
        exfalso
        apply hcond
        have hflen : (sim.get_f eq 1).length = sim.len + 2 := by
          simp only [Simluation.get_f, List.length_map, length_get_u]
        constructor <;>
          simp only [List.length_map, length_izip3, List.length_drop, hflen, hvn, hvp] <;>
          omega
    · intro habs
      cases habs

/-- BeamWarming::flux fails exactly when its speed estimate (at ext = 1)
fails. -/
lemma beamWarming_flux_none_iff (sim : Simluation) (eq : Equation) :
    BeamWarming.flux sim eq = none ↔ Scheme.speed sim eq 1 = none := by
  cases hs : Scheme.speed sim eq 1 with
  | none =>
    constructor
    · intro _
      rfl
    · intro _
      unfold BeamWarming.flux
      rw [hs]
  | some vv =>
    obtain ⟨vn, vp⟩ := vv
    obtain ⟨hvn, hvp⟩ := speed_lengths sim eq 1 vn vp hs
    constructor
    · intro habs
      unfold BeamWarming.flux at habs
      simp only [hs] at habs
      split at habs
      · cases habs
      · rename_i hcond
        exfalso
        apply hcond
        have hflen : (sim.get_f eq 2).length = sim.len + 4 := by
          simp only [Simluation.get_f, List.length_map, length_get_u]
        constructor <;>
          simp only [List.length_map, List.length_take, length_izip7, List.length_drop,
            hflen, hvn, hvp] <;>
          omega
    · intro habs
      cases habs

/-! ## Characterization of the grid constructor -/

lemma arrayRange_eq_none_iff (start stop step : ℚ) :
    arrayRange start stop step = none ↔ step = 0 ∨ ⌈(stop - start) / step⌉ < 0 := by
  unfold arrayRange
  by_cases h0 : step = 0
  · rw [if_pos h0]
    simp [h0]
  · rw [if_neg h0]
    by_cases hc : ⌈(stop - start) / step⌉ < 0
    · rw [if_pos hc]
      simp [h0, hc]
    · rw [if_neg hc]
      simp [h0, hc]

lemma arrayRange_eq_some (start stop step : ℚ) (h0 : step ≠ 0)
    (hc : ¬ ⌈(stop - start) / step⌉ < 0) :
    arrayRange start stop step
      = some ((List.range (⌈(stop - start) / step⌉.toNat)).map
        (fun (i : ℕ) => start + (i : ℚ) * step)) := by
  unfold arrayRange
  rw [if_neg h0, if_neg hc]

lemma new_eq_none (dx dt lo hi : ℚ) (init : ℚ → ℚ) (h : arrayRange lo hi dx = none) :
    Simluation.new dx dt lo hi init = none := by
  unfold Simluation.new
  rw [h]

lemma new_eq_of_range (dx dt lo hi : ℚ) (init : ℚ → ℚ) (g : List ℚ)
    (h : arrayRange lo hi dx = some g) :
    Simluation.new dx dt lo hi init
      = some { dx := dx, dt := dt, boundary := none, grid := g, state := g.map init } := by
  unfold Simluation.new
  rw [h]

/-! ## Reachability of Simluation values through the public interface -/

/-- Simluation values reachable through the public constructors (new,
Default::default) and the state-replacing operation set_state. -/
inductive ReachableSim : Simluation → Prop
  | of_new (dx dt lo hi : ℚ) (init : ℚ → ℚ) (sim : Simluation) :
      Simluation.new dx dt lo hi init = some sim → ReachableSim sim
  | of_default : ReachableSim Simluation.default
  | of_set_state (sim : Simluation) (v : List ℚ) (out : Simluation) :
      ReachableSim sim → sim.set_state v = some out → ReachableSim out

/-! ## Concrete simulations used by the witnesses -/

def wSimP : Simluation :=
  { state := [1, 2, 3], dt := 1 / 10, dx := 1, grid := [0, 1, 2], boundary := none }

def wSimD : Simluation :=
  { state := [1, 2, 3], dt := 1 / 10, dx := 1, grid := [0, 1, 2], boundary := some (5, 7) }

/-! ## Claim theorems -/

/-- Claim C1: under a periodic boundary (boundary = None), every scheme in
{Upwind, BeamWarming, LaxWendroff, LaxFriedrichs} conserves the total mass:
whenever Scheme::run succeeds, the sum of the returned state equals the sum
of the current state (exactly, in the rational idealisation of the float
arithmetic).  The halo reads require N at least the scheme's halo width. -/
theorem C1_conservation (k : SchemeKind) (eq : Equation) (sim : Simluation) (out : List ℚ)
    (hb : sim.boundary = none) (hmin : k.minN ≤ sim.len)
    (hrun : Scheme.run k sim eq = some out) :
    out.sum = sim.state.sum := by
  cases hf : k.flux sim eq with
  | none =>
    rw [(run_none_iff_flux_none k sim eq).mpr hf] at hrun
    cases hrun
  | some pair =>
    obtain ⟨hn, hp⟩ := pair
    have hsum := run_some_sum k sim eq hn hp hf out hrun
    by_cases hl : sim.dt_over_dx = 0
    · rw [hsum, hl]
      ring
    · have hfl : hp.sum = hn.sum := by
        cases k with
        | upwind => exact upwind_flux_sums sim eq hn hp hb hmin hl hf
        | beamWarming => exact bw_flux_sums sim eq hn hp hb hmin hf
        | laxWendroff => exact lw_flux_sums sim eq hn hp hb hmin hf
        | laxFriedrichs => exact lf_flux_sums sim eq hn hp hb hmin hf
      rw [hsum, hfl]
      ring

set_option maxRecDepth 16000 in
theorem C1_conservation_witness :
    Scheme.run SchemeKind.upwind wSimP (Advection 1) = some [6/5, 19/10, 29/10] ∧
      ([6/5, 19/10, 29/10] : List ℚ).sum = wSimP.state.sum := by
  have hrun : Scheme.run SchemeKind.upwind wSimP (Advection 1)
      = some [6/5, 19/10, 29/10] := by with_unfolding_all decide
  exact ⟨hrun, C1_conservation SchemeKind.upwind (Advection 1) wSimP
    [6/5, 19/10, 29/10] rfl (by decide) hrun⟩

/-- Claim C6: the halo extension get_u of width k (with k at most N) has
length N + 2k; its middle N entries are the state; under the periodic
boundary (None) the left pad at offset i from the boundary holds
state[N-1-i] and the right pad at offset i holds state[i]; under
Dirichlet(l, r) every left pad slot is l and every right pad slot is r;
and get_f is the equation flux mapped over get_u. -/
theorem C6_boundary_extension (sim : Simluation) (k : ℕ) (hk : k ≤ sim.state.length) :
    (sim.get_u k).length = sim.state.length + 2 * k ∧
    (∀ j, j < sim.state.length →
      (sim.get_u k).getD (k + j) 0 = sim.state.getD j 0) ∧
    (sim.boundary = none → ∀ i, i < k →
      (sim.get_u k).getD (k - 1 - i) 0 = sim.state.getD (sim.state.length - 1 - i) 0 ∧
      (sim.get_u k).getD (k + sim.state.length + i) 0 = sim.state.getD i 0) ∧
    (∀ l r, sim.boundary = some (l, r) → ∀ i, i < k →
      (sim.get_u k).getD (k - 1 - i) 0 = l ∧
      (sim.get_u k).getD (k + sim.state.length + i) 0 = r) ∧
    (∀ eq, sim.get_f eq k = (sim.get_u k).map eq.f) := by
  refine ⟨?_, ?_, ?_, ?_, fun eq => rfl⟩
  · rw [length_get_u]
    rfl
  · intro j hj
    cases hbc : sim.boundary with
    | none =>
      rw [getD_get_u_periodic sim hbc k (k + j) hk (by omega)]
      congr 1
      have heq : k + j + sim.state.length - k = j + sim.state.length := by omega
      rw [heq, Nat.add_mod_right, Nat.mod_eq_of_lt hj]
    | some b =>
      obtain ⟨l, r⟩ := b
      rw [get_u_dirichlet sim l r hbc k]
      rw [List.getD_append _ _ _ _ (by simp only [List.length_append, List.length_replicate]; omega)]
      rw [List.getD_append_right _ _ _ _ (by simp only [List.length_replicate]; omega)]
      congr 1
      simp only [List.length_replicate]
      omega
  · intro hbc i hi
    constructor
    · rw [getD_get_u_periodic sim hbc k (k - 1 - i) hk (by omega)]
      congr 1
      have heq : k - 1 - i + sim.state.length - k = sim.state.length - 1 - i := by omega
      rw [heq, Nat.mod_eq_of_lt (by omega)]
    · rw [getD_get_u_periodic sim hbc k (k + sim.state.length + i) hk (by omega)]
      congr 1
      have heq : k + sim.state.length + i + sim.state.length - k
          = i + sim.state.length + sim.state.length := by omega
      rw [heq, Nat.add_mod_right, Nat.add_mod_right, Nat.mod_eq_of_lt (by omega)]
  · intro l r hbc i hi
    have hrep : ∀ m (c : ℚ) (p : ℕ), p < m → (List.replicate m c).getD p 0 = c := by
      intro m c p hp
      rw [List.getD_eq_getElem _ _ (by simpa using hp)]
      simp
    constructor
    · rw [get_u_dirichlet sim l r hbc k]
      rw [List.getD_append _ _ _ _ (by simp only [List.length_append, List.length_replicate]; omega)]
      rw [List.getD_append _ _ _ _ (by simp only [List.length_replicate]; omega)]
      exact hrep k l _ (by omega)
    · rw [get_u_dirichlet sim l r hbc k]
      rw [List.getD_append_right _ _ _ _
        (by simp only [List.length_append, List.length_replicate]; omega)]
      have heq : k + sim.state.length + i - (List.replicate k l ++ sim.state).length = i := by
        simp only [List.length_append, List.length_replicate]
        omega
      rw [heq]
      exact hrep k r i hi

theorem C6_boundary_extension_witness :
    (wSimD.get_u 2).getD 1 0 = 5 ∧ (wSimD.get_u 2).getD 5 0 = 7 ∧
    (wSimP.get_u 2).getD 1 0 = wSimP.state.getD 2 0 ∧
    (wSimP.get_u 2).getD 5 0 = wSimP.state.getD 0 0 ∧
    (wSimP.get_u 2).getD 2 0 = wSimP.state.getD 0 0 ∧
    (wSimP.get_u 2).length = 7 := by
  have hD := C6_boundary_extension wSimD 2 (by decide)
  have hP := C6_boundary_extension wSimP 2 (by decide)
  exact ⟨(hD.2.2.2.1 5 7 rfl 0 (by decide)).1, (hD.2.2.2.1 5 7 rfl 0 (by decide)).2,
    (hP.2.2.1 rfl 0 (by decide)).1, (hP.2.2.1 rfl 0 (by decide)).2,
    hP.2.1 0 (by decide), hP.1⟩

/-- Claim C8 counterexample: the Rust constructor performs no validation of
its own and has no ConfigurationError path.  With dt = -1 (the claim demands
a ConfigurationError and that nothing be created) Simluation::new succeeds
and returns a fully formed value. -/
theorem C8_counterexample :
    Simluation.new 1 (-1) 0 2 (fun x => x)
      = some { state := [0, 1], dt := -1, dx := 1, grid := [0, 1], boundary := none } := by
  with_unfolding_all decide

/-- Claim C8 (amended): construction validates nothing itself and never
reports a ConfigurationError: dt and the hi/lo ordering are not checked at
all (any dt, including dt = -1, is accepted).  Its only failure is the
library panic inside the Array::range call, exactly when dx = 0 or the
sample count ceil((hi - lo)/dx) is negative (e.g. dx < 0 with hi > lo, or
dx > 0 with hi <= lo - dx).  On success the value has boundary None, the
given dt and dx, state = init mapped over the grid, and
ceil((hi - lo)/dx).toNat grid samples; for dx > 0 sample i is lo + i * dx,
strictly below hi. -/
theorem C8_new_no_validation (dx dt lo hi : ℚ) (init : ℚ → ℚ) :
    (Simluation.new dx dt lo hi init = none ↔ dx = 0 ∨ ⌈(hi - lo) / dx⌉ < 0) ∧
    ∀ sim, Simluation.new dx dt lo hi init = some sim →
      sim.boundary = none ∧ sim.dt = dt ∧ sim.dx = dx ∧
      sim.state = sim.grid.map init ∧
      sim.grid.length = (⌈(hi - lo) / dx⌉).toNat ∧
      (0 < dx → ∀ i, i < (⌈(hi - lo) / dx⌉).toNat →
        sim.grid.getD i 0 = lo + (i : ℚ) * dx ∧ sim.grid.getD i 0 < hi) := by
  constructor
  · constructor
    · intro hnone
      by_cases h0 : dx = 0
      · exact Or.inl h0
      · by_cases hc : ⌈(hi - lo) / dx⌉ < 0
        · exact Or.inr hc
        · rw [new_eq_of_range dx dt lo hi init _ (arrayRange_eq_some lo hi dx h0 hc)] at hnone
          cases hnone
    · intro hcond
      exact new_eq_none dx dt lo hi init ((arrayRange_eq_none_iff lo hi dx).mpr hcond)
  · intro sim hsim
    by_cases h0 : dx = 0
    · rw [new_eq_none dx dt lo hi init
        ((arrayRange_eq_none_iff lo hi dx).mpr (Or.inl h0))] at hsim
      cases hsim
    · by_cases hc : ⌈(hi - lo) / dx⌉ < 0
      · rw [new_eq_none dx dt lo hi init
          ((arrayRange_eq_none_iff lo hi dx).mpr (Or.inr hc))] at hsim
        cases hsim
      · rw [new_eq_of_range dx dt lo hi init _ (arrayRange_eq_some lo hi dx h0 hc)] at hsim
        injection hsim with h'
        subst h'
        refine ⟨rfl, rfl, rfl, rfl,
          by rw [List.length_map, List.length_range], ?_⟩
        intro hdx i hi'
        have h1 : i < ((List.range (⌈(hi - lo) / dx⌉.toNat)).map
            (fun (i : ℕ) => lo + (i : ℚ) * dx)).length := by
          rw [List.length_map, List.length_range]
          exact hi'
        have hget : ((List.range (⌈(hi - lo) / dx⌉.toNat)).map
            (fun (i : ℕ) => lo + (i : ℚ) * dx)).getD i 0 = lo + (i : ℚ) * dx := by
          rw [List.getD_eq_getElem _ _ h1]
          simp only [List.getElem_map, List.getElem_range]
        refine ⟨hget, ?_⟩
        rw [hget]
        have hceil : (i : ℤ) < ⌈(hi - lo) / dx⌉ := by omega
        have hq : (i : ℚ) < (hi - lo) / dx := by
          have := Int.lt_ceil.mp hceil
          exact_mod_cast this
        have hmul : (i : ℚ) * dx < hi - lo := (lt_div_iff₀ hdx).mp hq
        linarith

theorem C8_new_no_validation_witness :
    Simluation.new 1 (-1) 0 2 (fun x => x) ≠ none ∧
    ({ state := [0, 1], dt := -1, dx := 1, grid := [0, 1],
        boundary := none } : Simluation).boundary = none ∧
    ({ state := [0, 1], dt := -1, dx := 1, grid := [0, 1],
        boundary := none } : Simluation).dt = -1 ∧
    ({ state := [0, 1], dt := -1, dx := 1, grid := [0, 1],
        boundary := none } : Simluation).grid.getD 1 0 = 0 + (1 : ℚ) * 1 ∧
    ({ state := [0, 1], dt := -1, dx := 1, grid := [0, 1],
        boundary := none } : Simluation).grid.getD 1 0 < 2 := by
  have h := C8_new_no_validation 1 (-1) 0 2 (fun x => x)
  have hsome : Simluation.new 1 (-1) 0 2 (fun x => x)
      = some { state := [0, 1], dt := -1, dx := 1, grid := [0, 1], boundary := none } := by
    with_unfolding_all decide
  obtain ⟨hb, hdt, hdx, hst, hlen, hpos⟩ := h.2 _ hsome
  have hp1 := hpos (by norm_num) 1 (by with_unfolding_all decide)
  refine ⟨?_, hb, hdt, hp1.1, hp1.2⟩
  intro habs
  rcases h.1.mp habs with h0 | hc
  · exact absurd h0 (by norm_num)
  · revert hc
    with_unfolding_all decide

/-- Claim C9: set_state rejects a replacement vector whose length differs
from the current state (the length check fires before any mutation, so
nothing is changed), and with a matching length it replaces exactly the
state field, leaving dt, dx, grid and boundary untouched. -/
theorem C9_set_state (sim : Simluation) (v : List ℚ) :
    (v.length ≠ sim.len → sim.set_state v = none) ∧
    (v.length = sim.len → sim.set_state v =
      some { state := v, dt := sim.dt, dx := sim.dx,
             grid := sim.grid, boundary := sim.boundary }) := by
  constructor
  · intro hne
    unfold Simluation.set_state
    rw [if_neg (by omega)]
  · intro he
    unfold Simluation.set_state
    rw [if_pos (by omega)]

theorem C9_set_state_witness :
    (wSimP.set_state [1, 2] = none) ∧
    (wSimP.set_state [4, 5, 6] =
      some { state := [4, 5, 6], dt := wSimP.dt, dx := wSimP.dx,
             grid := wSimP.grid, boundary := wSimP.boundary }) :=
  ⟨(C9_set_state wSimP [1, 2]).1 (by decide),
   (C9_set_state wSimP [4, 5, 6]).2 (by decide)⟩

/-- Claim C10: every Simluation reachable through the public constructors
(new, Default::default) and set_state has boundary = None (periodic wrap);
no public operation ever installs a Dirichlet boundary, so the Dirichlet
branch of the halo extension is unreachable from the public interface. -/
theorem C10_boundary_none (sim : Simluation) (h : ReachableSim sim) :
    sim.boundary = none := by
  induction h with
  | of_new dx dt lo hi init sim hnew =>
    cases har : arrayRange lo hi dx with
    | none =>
      rw [new_eq_none dx dt lo hi init har] at hnew
      cases hnew
    | some g =>
      rw [new_eq_of_range dx dt lo hi init g har] at hnew
      injection hnew with h'
      rw [← h']
  | of_default => rfl
  | of_set_state s v out hs hset ih =>
    unfold Simluation.set_state at hset
    split at hset
    · injection hset with h'
      rw [← h']
      exact ih
    · cases hset

theorem C10_boundary_none_witness :
    ({ state := [0], dt := 1, dx := 1, grid := [0],
        boundary := none } : Simluation).boundary = none :=
  C10_boundary_none _ (ReachableSim.of_new 1 1 0 1 (fun x => x) _
    (by with_unfolding_all decide))

def simC2x : Simluation :=
  { state := [0, 0, 2], dt := 1, dx := 1, grid := [0, 1, 2], boundary := none }

set_option maxRecDepth 16000 in
/-- Claim C2 counterexample: at halo parameter ext = 2 the estimator can
fail although every interface speed of the claim's formula
v = (dt/dx) * (df/du, or df(u) when du = 0) is within the CFL bound.  With
the Burgers flux on the periodic state [0, 0, 2] (dt = dx = 1) the eight
interface speeds are 0, 1, 1, 0, 1, 1, 0, 1 — all of magnitude at most 1 —
yet Scheme::speed at ext = 2 fails, because its v_neg fallback evaluates
df at u[i + ext] = 2, two cells away from the interface, giving an
assertion value of 2.  (For ext >= 3 the window-length sanity assertion
fails unconditionally.)  So the claim, quantified over every halo
parameter ext, is false. -/
theorem C2_counterexample :
    interfaceV InviscidBurger simC2x.dt_over_dx (simC2x.get_u 3) 0 = 0 ∧
    interfaceV InviscidBurger simC2x.dt_over_dx (simC2x.get_u 3) 1 = 1 ∧
    interfaceV InviscidBurger simC2x.dt_over_dx (simC2x.get_u 3) 2 = 1 ∧
    interfaceV InviscidBurger simC2x.dt_over_dx (simC2x.get_u 3) 3 = 0 ∧
    interfaceV InviscidBurger simC2x.dt_over_dx (simC2x.get_u 3) 4 = 1 ∧
    interfaceV InviscidBurger simC2x.dt_over_dx (simC2x.get_u 3) 5 = 1 ∧
    interfaceV InviscidBurger simC2x.dt_over_dx (simC2x.get_u 3) 6 = 0 ∧
    interfaceV InviscidBurger simC2x.dt_over_dx (simC2x.get_u 3) 7 = 1 ∧
    Scheme.speed simC2x InviscidBurger 2 = none := by
  refine ⟨?_, ?_, ?_, ?_, ?_, ?_, ?_, ?_, ?_⟩ <;> with_unfolding_all decide

/-- Claim C2 (amended): for the halo parameters the schemes actually pass
(ext = 0 for Upwind, ext = 1 for BeamWarming; states long enough for the
periodic halo reads), the speed estimator fails exactly when some
interface speed v = (dt/dx) * (df/du, or df(u) when du = 0) exceeds 1 in
magnitude; Upwind and BeamWarming runs fail exactly when their speed
estimate fails, while LaxWendroff and LaxFriedrichs never fail.  Outside
this range the claim is false: at ext = 2 the fallback argument u[i + ext]
leaves the interface, and at ext >= 3 the sanity assertion always fires. -/
theorem C2_cfl_violation (sim : Simluation) (eq : Equation) (e : ℕ)
    (he : e ≤ 1) (hne : e + 1 ≤ sim.len) :
    (Scheme.speed sim eq e = none ↔
      ∃ t, t ≤ sim.len + 2 * e ∧
        1 < |interfaceV eq sim.dt_over_dx (sim.get_u (e + 1)) t|) ∧
    (Scheme.run SchemeKind.upwind sim eq = none ↔ Scheme.speed sim eq 0 = none) ∧
    (Scheme.run SchemeKind.beamWarming sim eq = none ↔ Scheme.speed sim eq 1 = none) ∧
    Scheme.run SchemeKind.laxWendroff sim eq ≠ none ∧
    Scheme.run SchemeKind.laxFriedrichs sim eq ≠ none := by
  refine ⟨?_, ?_, ?_, ?_, ?_⟩
  · rw [speed_eq_ite]
    split
    · rename_i hcond
      obtain ⟨hA, hB, _, _⟩ := hcond
      rw [all_iff_getD] at hA hB
      constructor
      · intro habs
        cases habs
      · rintro ⟨t, ht, hv⟩
        exfalso
        rcases Nat.eq_zero_or_pos t with rfl | htpos
        · have h0 : (0 : ℕ) < sim.len + 2 * e := by omega
          have hb0 := hB 0 (by rw [length_speedVneg sim eq e (by omega)]; omega)
          rw [speedVneg_getD_interfaceV sim eq e 0 he h0] at hb0
          simp at hb0
          linarith
        · obtain ⟨i, rfl⟩ : ∃ i, t = i + 1 := ⟨t - 1, by omega⟩
          have hi : i < sim.len + 2 * e := by omega
          have ha := hA i (by rw [length_speedVpos]; omega)
          rw [speedVpos_getD_interfaceV sim eq e i hi] at ha
          simp at ha
          linarith
    · rename_i hcond
      constructor
      · intro _
        by_cases hA : (speedVpos sim eq e).all (fun v => |v| ≤ 1) = true
        · have hB : ¬ (speedVneg sim eq e).all (fun v => |v| ≤ 1) = true := by
            intro hB
            exact hcond ⟨hA, hB, by
              rw [length_speedVneg sim eq e (by omega), length_speedVpos],
              length_speedVpos sim eq e⟩
          rw [all_iff_getD] at hB
          push_neg at hB
          obtain ⟨i, hi, hbi⟩ := hB
          rw [length_speedVneg sim eq e (by omega)] at hi
          rw [speedVneg_getD_interfaceV sim eq e i he hi] at hbi
          simp at hbi
          exact ⟨i, by omega, hbi⟩
        · rw [all_iff_getD] at hA
          push_neg at hA
          obtain ⟨i, hi, hai⟩ := hA
          rw [length_speedVpos] at hi
          rw [speedVpos_getD_interfaceV sim eq e i hi] at hai
          simp at hai
          exact ⟨i + 1, by omega, hai⟩
      · intro _
        rfl
  · rw [run_none_iff_flux_none]
    exact upwind_flux_none_iff sim eq
  · rw [run_none_iff_flux_none]
    exact beamWarming_flux_none_iff sim eq
  · obtain ⟨hn', hp', hf⟩ := laxWendroff_flux_eq_some sim eq
    rw [run_eq_of_flux SchemeKind.laxWendroff sim eq hn' hp' hf]
    simp
  · obtain ⟨hn', hp', hf⟩ := laxFriedrichs_flux_eq_some sim eq
    rw [run_eq_of_flux SchemeKind.laxFriedrichs sim eq hn' hp' hf]
    simp

def simBad : Simluation :=
  { state := [0, 10], dt := 1, dx := 1, grid := [0, 1], boundary := none }

set_option maxRecDepth 8000 in
theorem C2_cfl_violation_witness :
    Scheme.speed simBad InviscidBurger 0 = none ∧
    Scheme.run SchemeKind.laxWendroff simBad InviscidBurger ≠ none := by
  have h := C2_cfl_violation simBad InviscidBurger 0 (by omega) (by decide)
  exact ⟨h.1.mpr ⟨1, by decide, by with_unfolding_all decide⟩, h.2.2.2.1⟩

/-- Claim C3: whenever the scheme-specific flux succeeds, the shared
conservative update Scheme::run succeeds and returns a state of the
physical length N with new[j] = u[j] - (dt/dx) * (h_pos[j] - h_neg[j]),
for every one of the four schemes. -/
theorem C3_run_update (k : SchemeKind) (sim : Simluation) (eq : Equation)
    (hn hp : List ℚ) (hflux : k.flux sim eq = some (hn, hp)) :
    Scheme.run k sim eq ≠ none ∧
    ∀ out, Scheme.run k sim eq = some out →
      out.length = sim.len ∧
      ∀ j, j < sim.len → out.getD j 0 =
        sim.state.getD j 0 - sim.dt_over_dx * (hp.getD j 0 - hn.getD j 0) := by
  constructor
  · rw [run_eq_of_flux k sim eq hn hp hflux]
    simp
  · intro out hrun
    exact run_some_spec k sim eq hn hp hflux out hrun

set_option maxRecDepth 16000 in
theorem C3_run_update_witness :
    Scheme.run SchemeKind.laxFriedrichs wSimP (Advection 1) ≠ none ∧
    ([213/200, 19/10, 607/200] : List ℚ).length = wSimP.len ∧
    ([213/200, 19/10, 607/200] : List ℚ).getD 0 0 =
      wSimP.state.getD 0 0 - wSimP.dt_over_dx *
        (([29/20, 49/20, 21/10] : List ℚ).getD 0 0
          - ([21/10, 29/20, 49/20] : List ℚ).getD 0 0) := by
  have hflux : SchemeKind.laxFriedrichs.flux wSimP (Advection 1)
      = some ([21/10, 29/20, 49/20], [29/20, 49/20, 21/10]) := by
    with_unfolding_all decide
  have h := C3_run_update SchemeKind.laxFriedrichs wSimP (Advection 1) _ _ hflux
  have hrun : Scheme.run SchemeKind.laxFriedrichs wSimP (Advection 1)
      = some [213/200, 19/10, 607/200] := by
    with_unfolding_all decide
  obtain ⟨h2a, h2b⟩ := h.2 _ hrun
  exact ⟨h.1, h2a, h2b 0 (by decide)⟩

/-- Claim C4: for positive dt and dx (the data-model range), the Upwind
numerical fluxes satisfy h_pos[j] = f[j] when v_pos[j] > 0 and f[j+1]
otherwise, and h_neg[j] = f[j-1] when v_neg[j] > 0 and f[j] otherwise —
including the case v = 0 — where f is the halo-1 extended flux array
(cell index j sits at extended index j+1) and the speeds come from the
shared estimator at ext = 0. -/
theorem C4_upwind_flux (sim : Simluation) (eq : Equation) (hn hp vn vp : List ℚ)
    (hdt : 0 < sim.dt) (hdx : 0 < sim.dx)
    (hsp : Scheme.speed sim eq 0 = some (vn, vp))
    (hflux : Upwind.flux sim eq = some (hn, hp)) :
    ∀ j, j < sim.len →
      (hp.getD j 0 = if 0 < vp.getD j 0 then (sim.get_f eq 1).getD (j + 1) 0
        else (sim.get_f eq 1).getD (j + 2) 0) ∧
      (hn.getD j 0 = if 0 < vn.getD j 0 then (sim.get_f eq 1).getD j 0
        else (sim.get_f eq 1).getD (j + 1) 0) := by
  have hl : sim.dt_over_dx ≠ 0 :=
    div_ne_zero (ne_of_gt hdt) (ne_of_gt hdx)
  obtain ⟨vn', vp', hs', hlnn, hlpp, hfp, hfn⟩ := upwind_flux_some_spec sim eq hn hp hflux
  have hvv : vn' = vn ∧ vp' = vp := by
    have := hs'.symm.trans hsp
    simp only [Option.some.injEq, Prod.mk.injEq] at this
    exact this
  obtain ⟨rfl, rfl⟩ := hvv
  intro j hj
  refine ⟨hfp j hj, ?_⟩
  rw [hfn j hj]
  have hvnj : vn'.getD j 0 = interfaceV eq sim.dt_over_dx (sim.get_u 1) j :=
    speed_vneg_interfaceV sim eq 0 vn' vp' hs' (by omega) j (by omega)
  rcases lt_trichotomy (vn'.getD j 0) 0 with hv | hv | hv
  · rw [if_pos hv, if_neg (by linarith)]
  · rw [if_neg (by rw [hv]; exact lt_irrefl 0), if_neg (by rw [hv]; exact lt_irrefl 0)]
    have hV0 : interfaceV eq sim.dt_over_dx (sim.get_u 1) j = 0 := by
      rw [← hvnj]
      exact hv
    exact (interfaceV_zero_flux_eq sim eq 1 j hl
      (by rw [length_get_u]; omega) hV0).symm
  · rw [if_neg (by linarith), if_pos hv]

set_option maxRecDepth 16000 in
theorem C4_upwind_flux_witness :
    Scheme.speed wSimP (Advection 1) 0
      = some ([1/10, 1/10, 1/10], [1/10, 1/10, 1/10]) ∧
    Upwind.flux wSimP (Advection 1) = some ([3, 1, 2], [1, 2, 3]) ∧
    (([1, 2, 3] : List ℚ).getD 0 0
      = if 0 < ([1/10, 1/10, 1/10] : List ℚ).getD 0 0
        then (wSimP.get_f (Advection 1) 1).getD 1 0
        else (wSimP.get_f (Advection 1) 1).getD 2 0) ∧
    (([3, 1, 2] : List ℚ).getD 0 0
      = if 0 < ([1/10, 1/10, 1/10] : List ℚ).getD 0 0
        then (wSimP.get_f (Advection 1) 1).getD 0 0
        else (wSimP.get_f (Advection 1) 1).getD 1 0) := by
  have hsp : Scheme.speed wSimP (Advection 1) 0
      = some ([1/10, 1/10, 1/10], [1/10, 1/10, 1/10]) := by
    with_unfolding_all decide
  have hflux : Upwind.flux wSimP (Advection 1) = some ([3, 1, 2], [1, 2, 3]) := by
    with_unfolding_all decide
  have h := C4_upwind_flux wSimP (Advection 1) [3, 1, 2] [1, 2, 3]
    [1/10, 1/10, 1/10] [1/10, 1/10, 1/10] (by with_unfolding_all decide)
    (by with_unfolding_all decide) hsp hflux 0 (by decide)
  exact ⟨hsp, hflux, h.1, h.2⟩

set_option maxRecDepth 16000 in
/-- Claim C5 counterexample: in the prescribed scenario (Advection a = 1,
dx = 0.1, dt = 0.05, domain [-1, 1), step-function initial state, periodic
boundary) one Upwind step does NOT shift the discontinuity by one grid
cell: the state is not the one-cell cyclic shift of the initial state, and
the cell at the front (grid point 0, index 10) becomes 1/2. -/
theorem C5_counterexample :
    (Simluation.new (1/10) (1/20) (-1) 1
        (fun x => if 0 ≤ x ∧ x < 1 then 1 else 0)).bind
        (fun sim => Scheme.run SchemeKind.upwind sim (Advection 1))
      = some [1/2, 0, 0, 0, 0, 0, 0, 0, 0, 0, 1/2, 1, 1, 1, 1, 1, 1, 1, 1, 1] ∧
    ([1/2, 0, 0, 0, 0, 0, 0, 0, 0, 0, 1/2, 1, 1, 1, 1, 1, 1, 1, 1, 1] : List ℚ)
      ≠ [1, 0, 0, 0, 0, 0, 0, 0, 0, 0, 0, 1, 1, 1, 1, 1, 1, 1, 1, 1] ∧
    ([1/2, 0, 0, 0, 0, 0, 0, 0, 0, 0, 1/2, 1, 1, 1, 1, 1, 1, 1, 1, 1] : List ℚ).getD 10 0
      = 1/2 := by
  refine ⟨by with_unfolding_all decide, by with_unfolding_all decide,
    by with_unfolding_all decide⟩

set_option maxRecDepth 16000 in
/-- Claim C5 (amended): in the prescribed scenario the constructed initial
state is the step function 0 on [-1, 0) and 1 on [0, 1), and one Upwind
step (CFL 0.5) averages each cell with its left neighbour: the plateaus
away from the fronts keep the values 0 and 1 exactly, while the first cell
of each plateau (grid points -1 and 0) becomes 1/2 — the front advances by
half a cell, not a full cell. -/
theorem C5_one_step :
    (Simluation.new (1/10) (1/20) (-1) 1
        (fun x => if 0 ≤ x ∧ x < 1 then 1 else 0)).map Simluation.state
      = some [0, 0, 0, 0, 0, 0, 0, 0, 0, 0, 1, 1, 1, 1, 1, 1, 1, 1, 1, 1] ∧
    (Simluation.new (1/10) (1/20) (-1) 1
        (fun x => if 0 ≤ x ∧ x < 1 then 1 else 0)).bind
        (fun sim => Scheme.run SchemeKind.upwind sim (Advection 1))
      = some [1/2, 0, 0, 0, 0, 0, 0, 0, 0, 0, 1/2, 1, 1, 1, 1, 1, 1, 1, 1, 1] :=
  ⟨by with_unfolding_all decide, by with_unfolding_all decide⟩

def simC7x : Simluation :=
  { state := [0, 0, 1/2], dt := 1, dx := 1, grid := [0, 1, 2], boundary := none }

set_option maxRecDepth 16000 in
/-- Claim C7 counterexample: for halo parameter ext = 2 the two windows are
NOT offset views of one common interface sequence: with the Burgers flux on
the periodic state [0, 0, 1/2] (dt = dx = 1) the estimator succeeds but
v_neg[3] = 1/2 differs from v_pos[2] = 0, because the du = 0 fallback
evaluates df at u[i+ext], which for ext = 2 is not the interface cell. -/
theorem C7_counterexample :
    Scheme.speed simC7x InviscidBurger 2
      = some ([1/2, 1/4, 1/4, 1/2, 1/4, 1/4, 1/2], [1/4, 1/4, 0, 1/4, 1/4, 0, 1/4]) ∧
    ¬ ([1/2, 1/4, 1/4, 1/2, 1/4, 1/4, 1/2] : List ℚ).getD 3 0
        = ([1/4, 1/4, 0, 1/4, 1/4, 0, 1/4] : List ℚ).getD 2 0 :=
  ⟨by with_unfolding_all decide, by with_unfolding_all decide⟩

/-- Claim C7 (amended): for the halo parameters the schemes actually use
(ext at most 1), a successful speed estimate returns two arrays of length
N + 2 ext that are offset windows of the common per-interface speed
sequence: v_neg[j+1] = v_pos[j] for every j below N + 2 ext - 1. -/
theorem C7_speed_windows (sim : Simluation) (eq : Equation) (e : ℕ) (vn vp : List ℚ)
    (he : e ≤ 1) (h : Scheme.speed sim eq e = some (vn, vp)) :
    vn.length = sim.len + 2 * e ∧ vp.length = sim.len + 2 * e ∧
    ∀ j, j + 1 < sim.len + 2 * e → vn.getD (j + 1) 0 = vp.getD j 0 := by
  obtain ⟨h1, h2⟩ := speed_lengths sim eq e vn vp h
  refine ⟨h1, h2, ?_⟩
  intro j hj
  rw [speed_vneg_interfaceV sim eq e vn vp h he (j + 1) (by omega),
    speed_vpos_interfaceV sim eq e vn vp h j (by omega)]

set_option maxRecDepth 16000 in
theorem C7_speed_windows_witness :
    Scheme.speed wSimP (Advection 1) 0
      = some ([1/10, 1/10, 1/10], [1/10, 1/10, 1/10]) ∧
    ([1/10, 1/10, 1/10] : List ℚ).length = wSimP.len + 2 * 0 ∧
    ([1/10, 1/10, 1/10] : List ℚ).getD 1 0 = ([1/10, 1/10, 1/10] : List ℚ).getD 0 0 := by
  have hsp : Scheme.speed wSimP (Advection 1) 0
      = some ([1/10, 1/10, 1/10], [1/10, 1/10, 1/10]) := by
    with_unfolding_all decide
  have h := C7_speed_windows wSimP (Advection 1) 0 _ _ (by omega) hsp
  exact ⟨hsp, h.1, h.2.2 0 (by decide)⟩

end FdRs
